import Mathlib

/-!
# Voxel adjacency and mesh export of hpp-fcl (`src/octree.cpp`)

A shallow embedding of `internal::Neighbors`, `internal::computeNeighbors` and
`OcTree::exportAsObjFile`, and of `generateSelfDistanceEnvironments`
(`test/broadphase.cpp`), followed by the properties established about them.

Conventions of the embedding:

* `FCL_REAL` is taken as the field of rationals: every arithmetic operation of
  the source is exact here (no rounding, no NaN, no infinities).  The
  properties of the neighbour flags are therefore stated against the six tests
  of `computeNeighbors` as the code evaluates them (`passes`), not against the
  exact distance between two centres, which rounding can blur.
* `std::size_t` indices are natural numbers (`8*i + 8` never wraps for a list
  that fits in memory).
* `assert` is the C macro: it is compiled out when `NDEBUG` is defined
  (`ndebug = true`) and aborts the run otherwise.  A run that aborts, or that
  indexes a vector out of range, yields `none`.
* The text of a real number on an output stream is left to a parameter
  `fmt : ℚ → String`.
-/

namespace hpp.fcl

/-- An entry of the list returned by `toBoxes`: a `boost::array<FCL_REAL, 6>`.
Elements 0 to 3 are the centre and the edge size; `computeNeighbors` and
`exportAsObjFile` never read elements 4 and 5. -/
structure Box where
  x : ℚ
  y : ℚ
  z : ℚ
  size : ℚ
  e4 : ℚ
  e5 : ℚ
deriving DecidableEq

namespace internal

/-- The `struct Neighbors`: a bit set held in one `char`. -/
structure Neighbors where
  value : Nat
deriving DecidableEq

namespace Neighbors

/-- The constructor `Neighbors() : value(0)`. -/
def new : Neighbors := { value := 0 }

def minusX (n : Neighbors) : Bool := n.value &&& 0x1 != 0
def plusX (n : Neighbors) : Bool := n.value &&& 0x2 != 0
def minusY (n : Neighbors) : Bool := n.value &&& 0x4 != 0
def plusY (n : Neighbors) : Bool := n.value &&& 0x8 != 0
def minusZ (n : Neighbors) : Bool := n.value &&& 0x10 != 0
def plusZ (n : Neighbors) : Bool := n.value &&& 0x20 != 0

def hasNeighboordMinusX (n : Neighbors) : Neighbors := { value := n.value ||| 0x1 }
def hasNeighboordPlusX (n : Neighbors) : Neighbors := { value := n.value ||| 0x2 }
def hasNeighboordMinusY (n : Neighbors) : Neighbors := { value := n.value ||| 0x4 }
def hasNeighboordPlusY (n : Neighbors) : Neighbors := { value := n.value ||| 0x8 }
def hasNeighboordMinusZ (n : Neighbors) : Neighbors := { value := n.value ||| 0x10 }
def hasNeighboordPlusZ (n : Neighbors) : Neighbors := { value := n.value ||| 0x20 }

end Neighbors

/-- The tolerance `FCL_REAL e(1e-8)` of `computeNeighbors`. -/
def e : ℚ := 1 / 100000000

/-- Body of the inner loop `for (auto otherBox : boxes)` of `computeNeighbors`:
the comparison of `box` (edge size `s = box[3]`) against `otherBox`, with its
chain of `if ... else if ...`. -/
def compareBox (box otherBox : Box) (n : Neighbors) : Neighbors :=
  let x := box.x
  let y := box.y
  let z := box.z
  let s := box.size
  let xo := otherBox.x
  let yo := otherBox.y
  let zo := otherBox.z
  if abs (x - xo - s) < e ∧ abs (y - yo) < e ∧ abs (z - zo) < e then
    n.hasNeighboordMinusX
  else if abs (x - xo + s) < e ∧ abs (y - yo) < e ∧ abs (z - zo) < e then
    n.hasNeighboordPlusX
  else if abs (x - xo) < e ∧ abs (y - yo - s) < e ∧ abs (z - zo) < e then
    n.hasNeighboordMinusY
  else if abs (x - xo) < e ∧ abs (y - yo + s) < e ∧ abs (z - zo) < e then
    n.hasNeighboordPlusY
  else if abs (x - xo) < e ∧ abs (y - yo) < e ∧ abs (z - zo - s) < e then
    n.hasNeighboordMinusZ
  else if abs (x - xo) < e ∧ abs (y - yo) < e ∧ abs (z - zo + s) < e then
    n.hasNeighboordPlusZ
  else
    n

/-- The inner loop of `computeNeighbors`: `box` is compared against the boxes
of the list in order (its own entry included), updating `n`. -/
def scanBoxes (box : Box) : List Box → Neighbors → Neighbors
  | [], n => n
  | otherBox :: rest, n => scanBoxes box rest (compareBox box otherBox n)

/-- The outer loop of `computeNeighbors` from position `i` on: the boxes
`boxes[i..]` still to visit, the entries `neighbors[i..]` and the current
`fixedSize`.  The whole list `boxes` is what the inner loop scans. -/
def computeNeighborsFrom (ndebug : Bool) (boxes : List Box) :
    List Box → List Neighbors → ℚ → Option (List Neighbors)
  | [], neighbors, _ => some neighbors
  | _ :: _, [], _ => none
  | box :: rest, n :: neighbors, fixedSize =>
    let s := box.size
    if fixedSize = -1 then
      (computeNeighborsFrom ndebug boxes rest neighbors s).map
        (fun done => scanBoxes box boxes n :: done)
    else if ndebug || decide (s = fixedSize) then
      (computeNeighborsFrom ndebug boxes rest neighbors fixedSize).map
        (fun done => scanBoxes box boxes n :: done)
    else
      none

/-- The function `computeNeighbors(boxes, neighbors)`: `fixedSize` starts at
`-1`; the result is the updated vector `neighbors`. -/
def computeNeighbors (ndebug : Bool) (boxes : List Box) (neighbors : List Neighbors) :
    Option (List Neighbors) :=
  computeNeighborsFrom ndebug boxes boxes neighbors (-1)

end internal

/-- An element of `vertices`: a `std::array<FCL_REAL, 3>`. -/
abbrev Vertex := ℚ × ℚ × ℚ

/-- An element of `faces`: a `std::array<std::size_t, 4>`. -/
abbrev Quad := Nat × Nat × Nat × Nat

/-- The two vectors `vertices` and `faces` built by `exportAsObjFile`. -/
structure Mesh where
  vertices : List Vertex
  faces : List Quad
deriving DecidableEq

/-- Body of the loop `for (std::size_t i=0; i<boxes.size(); ++i)` of
`exportAsObjFile`: eight `vertices.push_back`, then one guarded
`faces.push_back` per side.  (`.5*size` is written `1/2 * size`.) -/
def addBox (i : Nat) (box : Box) (n : internal.Neighbors) (m : Mesh) : Mesh :=
  let x := box.x
  let y := box.y
  let z := box.z
  let size := box.size
  let vertices := m.vertices
  let vertices := vertices ++ [(x - 1/2 * size, y - 1/2 * size, z - 1/2 * size)]
  let vertices := vertices ++ [(x + 1/2 * size, y - 1/2 * size, z - 1/2 * size)]
  let vertices := vertices ++ [(x - 1/2 * size, y + 1/2 * size, z - 1/2 * size)]
  let vertices := vertices ++ [(x + 1/2 * size, y + 1/2 * size, z - 1/2 * size)]
  let vertices := vertices ++ [(x - 1/2 * size, y - 1/2 * size, z + 1/2 * size)]
  let vertices := vertices ++ [(x + 1/2 * size, y - 1/2 * size, z + 1/2 * size)]
  let vertices := vertices ++ [(x - 1/2 * size, y + 1/2 * size, z + 1/2 * size)]
  let vertices := vertices ++ [(x + 1/2 * size, y + 1/2 * size, z + 1/2 * size)]
  let faces := m.faces
  let faces := if !n.minusX then faces ++ [(8*i + 1, 8*i + 5, 8*i + 7, 8*i + 3)] else faces
  let faces := if !n.plusX then faces ++ [(8*i + 2, 8*i + 4, 8*i + 8, 8*i + 6)] else faces
  let faces := if !n.minusY then faces ++ [(8*i + 1, 8*i + 2, 8*i + 6, 8*i + 5)] else faces
  let faces := if !n.plusY then faces ++ [(8*i + 4, 8*i + 3, 8*i + 7, 8*i + 8)] else faces
  let faces := if !n.minusZ then faces ++ [(8*i + 1, 8*i + 2, 8*i + 4, 8*i + 3)] else faces
  let faces := if !n.plusZ then faces ++ [(8*i + 5, 8*i + 6, 8*i + 8, 8*i + 7)] else faces
  { vertices := vertices, faces := faces }

/-- The mesh loop of `exportAsObjFile` from index `i` on, over the remaining
boxes `boxes[i..]` and entries `neighbors[i..]`. -/
def buildMeshFrom : Nat → List Box → List internal.Neighbors → Mesh → Option Mesh
  | _, [], _, m => some m
  | _, _ :: _, [], _ => none
  | i, box :: rest, n :: neighbors, m => buildMeshFrom (i + 1) rest neighbors (addBox i box n m)

/-- Lines 131 to 166 of `exportAsObjFile`: the neighbour flags of `boxes`
(every entry starting from `Neighbors()`), then the vertices and faces. -/
def buildMesh (ndebug : Bool) (boxes : List Box) : Option Mesh :=
  match internal.computeNeighbors ndebug boxes
      (List.replicate boxes.length internal.Neighbors.new) with
  | none => none
  | some neighbors => buildMeshFrom 0 boxes neighbors { vertices := [], faces := [] }

/-- A `std::ofstream`: `none` while no file is open, otherwise the text sent to
the file so far. -/
abbrev Ofstream := Option String

/-- The insertion `os << s`; a stream that is not open drops the text. -/
def Ofstream.put (os : Ofstream) (s : String) : Ofstream :=
  os.map (fun written => written ++ s)

/-- The manipulator `std::endl`. -/
def endl : String := "\n"

/-- The loop `for (auto v : vertices)` writing the lines of the vertices. -/
def writeVertices (fmt : ℚ → String) : List Vertex → Ofstream → Ofstream
  | [], os => os
  | v :: rest, os =>
    writeVertices fmt rest
      ((((((os.put "v ").put (fmt v.1)).put " ").put (fmt v.2.1)).put " ").put
        (fmt v.2.2) |>.put endl)

/-- The loop `for (auto f : faces)` writing the lines of the faces. -/
def writeFaces : List Quad → Ofstream → Ofstream
  | [], os => os
  | f :: rest, os =>
    writeFaces rest
      ((((((((os.put "f ").put (toString f.1)).put " ").put (toString f.2.1)).put " ").put
        (toString f.2.2.1)).put " ").put (toString f.2.2.2) |>.put endl)

/-- How a call of `exportAsObjFile` that was not aborted ends; `os` is the
state of the output stream at that point. -/
inductive Outcome
  | returned (os : Ofstream)
  | runtime_error (what : String) (os : Ofstream)
deriving DecidableEq

/-- The method `OcTree::exportAsObjFile(filename)`.  `boxes` is the value of
`this->toBoxes()`; `opens` tells whether `os.open(filename)` succeeds. -/
def exportAsObjFile (ndebug : Bool) (fmt : ℚ → String) (boxes : List Box)
    (filename : String) (opens : Bool) : Option Outcome :=
  match buildMesh ndebug boxes with
  | none => none
  | some mesh =>
    let os : Ofstream := if opens then some "" else none
    if !os.isSome then
      some (Outcome.runtime_error ("failed to open file \"" ++ filename ++ "\"") os)
    else
      let os := (os.put "# list of vertices").put endl
      let os := writeVertices fmt mesh.vertices os
      let os := ((os.put endl).put "# list of faces").put endl
      let os := writeFaces mesh.faces os
      some (Outcome.returned os)

/-! ## Vocabulary of the properties -/

/-- The six sides of a voxel, in the order of the tests of `computeNeighbors`. -/
inductive Side
  | minusX
  | plusX
  | minusY
  | plusY
  | minusZ
  | plusZ
deriving DecidableEq, Repr

namespace Side

/-- The sides, in the order in which both loops go through them. -/
def all : List Side := [minusX, plusX, minusY, plusY, minusZ, plusZ]

/-- The side facing the other way. -/
def opposite : Side → Side
  | minusX => plusX
  | plusX => minusX
  | minusY => plusY
  | plusY => minusY
  | minusZ => plusZ
  | plusZ => minusZ

/-- The outward unit vector of a side. -/
def unit : Side → ℚ × ℚ × ℚ
  | minusX => (-1, 0, 0)
  | plusX => (1, 0, 0)
  | minusY => (0, -1, 0)
  | plusY => (0, 1, 0)
  | minusZ => (0, 0, -1)
  | plusZ => (0, 0, 1)

/-- Position of the bit of a side in `Neighbors::value`. -/
def bit : Side → Nat
  | minusX => 0
  | plusX => 1
  | minusY => 2
  | plusY => 3
  | minusZ => 4
  | plusZ => 5

end Side

/-- The flag of side `d`, read with the accessor of that side. -/
def internal.Neighbors.flag (n : internal.Neighbors) : Side → Bool
  | Side.minusX => n.minusX
  | Side.plusX => n.plusX
  | Side.minusY => n.minusY
  | Side.plusY => n.plusY
  | Side.minusZ => n.minusZ
  | Side.plusZ => n.plusZ

/-- The flag of side `d` set with the setter of that side. -/
def internal.Neighbors.mark (n : internal.Neighbors) : Side → internal.Neighbors
  | Side.minusX => n.hasNeighboordMinusX
  | Side.plusX => n.hasNeighboordPlusX
  | Side.minusY => n.hasNeighboordMinusY
  | Side.plusY => n.hasNeighboordPlusY
  | Side.minusZ => n.hasNeighboordMinusZ
  | Side.plusZ => n.hasNeighboordPlusZ

/-- Number of flags set in `n`. -/
def internal.Neighbors.count (n : internal.Neighbors) : Nat :=
  (Side.all.filter n.flag).length

/-- The centre of `a` displaced by the edge size of `a` towards side `d`. -/
def displaced (a : Box) (d : Side) : ℚ × ℚ × ℚ :=
  (a.x + a.size * d.unit.1, a.y + a.size * d.unit.2.1, a.z + a.size * d.unit.2.2)

/-- The centre of `b` lies within `1e-8`, on each coordinate, of the centre of
`a` displaced by the edge size of `a` towards side `d`. -/
def faceNeighbour (d : Side) (a b : Box) : Prop :=
  abs (b.x - (displaced a d).1) < internal.e ∧
  abs (b.y - (displaced a d).2.1) < internal.e ∧
  abs (b.z - (displaced a d).2.2) < internal.e

instance (d : Side) (a b : Box) : Decidable (faceNeighbour d a b) := by
  unfold faceNeighbour; infer_instance

/-- The side whose test is the first to succeed when `a` is compared against
`b`, if any. -/
def firstMatch (a b : Box) : Option Side :=
  Side.all.find? (fun d => decide (faceNeighbour d a b))

/-- The test of side `d` in the comparison of `box` against `otherBox`, as
`computeNeighbors` writes it (lines 110 to 120): the condition of the branch
that calls the setter of `d`, with `s` the edge size of `box`. -/
def passes (d : Side) (box otherBox : Box) : Prop :=
  let x := box.x
  let y := box.y
  let z := box.z
  let s := box.size
  let xo := otherBox.x
  let yo := otherBox.y
  let zo := otherBox.z
  match d with
  | Side.minusX => abs (x - xo - s) < internal.e ∧ abs (y - yo) < internal.e ∧
      abs (z - zo) < internal.e
  | Side.plusX => abs (x - xo + s) < internal.e ∧ abs (y - yo) < internal.e ∧
      abs (z - zo) < internal.e
  | Side.minusY => abs (x - xo) < internal.e ∧ abs (y - yo - s) < internal.e ∧
      abs (z - zo) < internal.e
  | Side.plusY => abs (x - xo) < internal.e ∧ abs (y - yo + s) < internal.e ∧
      abs (z - zo) < internal.e
  | Side.minusZ => abs (x - xo) < internal.e ∧ abs (y - yo) < internal.e ∧
      abs (z - zo - s) < internal.e
  | Side.plusZ => abs (x - xo) < internal.e ∧ abs (y - yo) < internal.e ∧
      abs (z - zo + s) < internal.e

instance (d : Side) (box otherBox : Box) : Decidable (passes d box otherBox) := by
  unfold passes; cases d <;> infer_instance

/-- Every box of the list has edge size `s`. -/
def AllSize (boxes : List Box) (s : ℚ) : Prop := ∀ b ∈ boxes, b.size = s

instance (boxes : List Box) (s : ℚ) : Decidable (AllSize boxes s) := by
  unfold AllSize; infer_instance

/-- The quad of side `d` of voxel `i`, as pushed by `exportAsObjFile`. -/
def quad (i : Nat) : Side → Quad
  | Side.minusX => (8*i + 1, 8*i + 5, 8*i + 7, 8*i + 3)
  | Side.plusX => (8*i + 2, 8*i + 4, 8*i + 8, 8*i + 6)
  | Side.minusY => (8*i + 1, 8*i + 2, 8*i + 6, 8*i + 5)
  | Side.plusY => (8*i + 4, 8*i + 3, 8*i + 7, 8*i + 8)
  | Side.minusZ => (8*i + 1, 8*i + 2, 8*i + 4, 8*i + 3)
  | Side.plusZ => (8*i + 5, 8*i + 6, 8*i + 8, 8*i + 7)

/-- The corner `k` (0 to 7) of a box: bit 0 of `k` gives the sign on x, bit 1
on y and bit 2 on z (clear is minus, set is plus). -/
def corner (b : Box) (k : Nat) : Vertex :=
  (if k.testBit 0 then b.x + b.size / 2 else b.x - b.size / 2,
   if k.testBit 1 then b.y + b.size / 2 else b.y - b.size / 2,
   if k.testBit 2 then b.z + b.size / 2 else b.z - b.size / 2)

/-- The vector `neighbors` as `exportAsObjFile` creates it: one `Neighbors()`
per box. -/
def freshNeighbors (boxes : List Box) : List internal.Neighbors :=
  List.replicate boxes.length internal.Neighbors.new

/-- The flags every box ends with when the outer loop runs to its end from
fresh entries. -/
def scanAll (boxes : List Box) : List internal.Neighbors :=
  boxes.map (fun box => internal.scanBoxes box boxes internal.Neighbors.new)

/-- The eight corners of a box, in the order of the `push_back` calls. -/
def corners (b : Box) : List Vertex := (List.range 8).map (corner b)

/-- The corners of all boxes, box after box. -/
def vertsOf : List Box → List Vertex
  | [] => []
  | b :: rest => corners b ++ vertsOf rest

/-- The quads of voxel `i` whose flag is clear in `n`, in the order of the
sides. -/
def keptQuads (i : Nat) (n : internal.Neighbors) : List Quad :=
  (Side.all.filter (fun d => !n.flag d)).map (quad i)

/-- The kept quads of all voxels from index `i` on, voxel after voxel. -/
def facesOf : Nat → List internal.Neighbors → List Quad
  | _, [] => []
  | i, n :: rest => keptQuads i n ++ facesOf (i + 1) rest

/-- The line of a vertex in the file, without its end of line. -/
def vertexLine (fmt : ℚ → String) (v : Vertex) : String :=
  "v " ++ fmt v.1 ++ " " ++ fmt v.2.1 ++ " " ++ fmt v.2.2

/-- The line of a face in the file, without its end of line. -/
def faceLine (f : Quad) : String :=
  "f " ++ toString f.1 ++ " " ++ toString f.2.1 ++ " " ++ toString f.2.2.1 ++ " " ++
    toString f.2.2.2

/-- The lines of the file of a mesh: the heading of the vertices, one line per
vertex, an empty line, the heading of the faces, one line per face. -/
def objLines (fmt : ℚ → String) (mesh : Mesh) : List String :=
  "# list of vertices" :: mesh.vertices.map (vertexLine fmt) ++
    "" :: "# list of faces" :: mesh.faces.map faceLine

/-- The text made of the given lines, each followed by an end of line. -/
def unlines : List String → String
  | [] => ""
  | l :: rest => l ++ "\n" ++ unlines rest

/-- The four indices of a quad, in the order in which they are written. -/
def Quad.indices (q : Quad) : List Nat := [q.1, q.2.1, q.2.2.1, q.2.2.2]

/-- The coordinate of a vertex along the axis of a side. -/
def Side.coord : Side → Vertex → ℚ
  | Side.minusX, v => v.1
  | Side.plusX, v => v.1
  | Side.minusY, v => v.2.1
  | Side.plusY, v => v.2.1
  | Side.minusZ, v => v.2.2
  | Side.plusZ, v => v.2.2

/-- The plane of side `d` of a box: `x - s/2` for -x, `x + s/2` for +x, and so
on for y and z. -/
def facePlane (b : Box) : Side → ℚ
  | Side.minusX => b.x - b.size / 2
  | Side.plusX => b.x + b.size / 2
  | Side.minusY => b.y - b.size / 2
  | Side.plusY => b.y + b.size / 2
  | Side.minusZ => b.z - b.size / 2
  | Side.plusZ => b.z + b.size / 2

/-- The corners (0 to 7) named by the quad of a side, in the order of the
quad: index `8*i + k + 1` of the quad of voxel `i` names corner `k`. -/
def quadCorners : Side → List Nat
  | Side.minusX => [0, 4, 6, 2]
  | Side.plusX => [1, 3, 7, 5]
  | Side.minusY => [0, 1, 5, 4]
  | Side.plusY => [3, 2, 6, 7]
  | Side.minusZ => [0, 1, 3, 2]
  | Side.plusZ => [4, 5, 7, 6]

/-- The difference `v - w` of two points. -/
def vsub (v w : Vertex) : Vertex := (v.1 - w.1, v.2.1 - w.2.1, v.2.2 - w.2.2)

/-- The cross product of two vectors. -/
def cross (u w : Vertex) : Vertex :=
  (u.2.1 * w.2.2 - u.2.2 * w.2.1, u.2.2 * w.1 - u.1 * w.2.2, u.1 * w.2.1 - u.2.1 * w.1)

/-- The dot product of two vectors. -/
def dot (u w : Vertex) : ℚ := u.1 * w.1 + u.2.1 * w.2.1 + u.2.2 * w.2.2

/-- The number of coordinates in which two points differ. -/
def differing (v w : Vertex) : Nat :=
  (if v.1 = w.1 then 0 else 1) + (if v.2.1 = w.2.1 then 0 else 1) +
    (if v.2.2 = w.2.2 then 0 else 1)

/-! ## The environment of the self-distance test (`test/broadphase.cpp`)

`unsigned int` is 32 bits wide: its arithmetic is taken modulo `2^32`.  The
conversion of an `unsigned int` beyond `2^31 - 1` to `int` wraps to the negative
numbers.  The value of `std::floor(std::pow(n, 1 / 3.0))`, a floating-point
computation of the C++ library, is taken as a parameter `floorCbrt`. -/

namespace test

/-- Reduction of a natural number to an `unsigned int`. -/
def wrap32 (k : Nat) : Nat := k % 2 ^ 32

/-- The product of two `unsigned int`. -/
def wmul (a b : Nat) : Nat := wrap32 (a * b)

/-- The difference `a - b` of two `unsigned int`. -/
def wsub (a b : Nat) : Nat := wrap32 (a + (2 ^ 32 - wrap32 b))

/-- Conversion of an `unsigned int` to `int`. -/
def toInt (u : Nat) : Int := if u < 2 ^ 31 then (u : Int) else (u : Int) - 2 ^ 32

/-- Conversion of an `int` to `unsigned int`, as in the product of an
`unsigned int` by an `int`. -/
def ofInt (z : Int) : Nat := (z % 2 ^ 32).toNat

/-- The geometries built by `generateSelfDistanceEnvironments`. -/
inductive Shape
  | Box (x y z : ℚ)
  | Sphere (radius : ℚ)
  | Cylinder (radius lz : ℚ)
  | Cone (radius lz : ℚ)
deriving DecidableEq

/-- A `CollisionObject`: a geometry and the translation of its `Transform3f`. -/
structure CollisionObject where
  geom : Shape
  translation : ℚ × ℚ × ℚ
deriving DecidableEq

/-- The line `int x = i % (n_edge * n_edge);`. -/
def cellX (n_edge i : Nat) : Int := toInt (i % wmul n_edge n_edge)

/-- The line `int y = (i - n_edge * n_edge * x) % n_edge;`. -/
def cellY (n_edge i : Nat) : Int :=
  toInt (wsub i (wmul (wmul n_edge n_edge) (ofInt (cellX n_edge i))) % n_edge)

/-- The line `int z = i - n_edge * n_edge * x - n_edge * y;`. -/
def cellZ (n_edge i : Nat) : Int :=
  toInt (wsub (wsub i (wmul (wmul n_edge n_edge) (ofInt (cellX n_edge i))))
    (wmul n_edge (ofInt (cellY n_edge i))))

/-- The translation given to the object of index `i`: on each axis
`c * step_size + delta_size + 0.5 * single_size - env_scale`. -/
def place (n_edge : Nat) (env_scale step_size delta_size single_size : ℚ) (i : Nat) :
    ℚ × ℚ × ℚ :=
  ((cellX n_edge i : ℚ) * step_size + delta_size + 1 / 2 * single_size - env_scale,
   (cellY n_edge i : ℚ) * step_size + delta_size + 1 / 2 * single_size - env_scale,
   (cellZ n_edge i : ℚ) * step_size + delta_size + 1 / 2 * single_size - env_scale)

/-- A loop `for (; i < bound; ++i) env.push_back(make(i));` entered with the
current value of `i`; it yields the value of `i` it leaves and the new `env`.
(`++i` cannot wrap: `i < bound < 2^32`.) -/
def forLoop (make : Nat → CollisionObject) (bound : Nat) (i : Nat)
    (env : List CollisionObject) : Nat × List CollisionObject :=
  if i < bound then forLoop make bound (i + 1) (env ++ [make i]) else (i, env)
termination_by bound - i

/-- The function `generateSelfDistanceEnvironments(env, env_scale, n)`: four
loops in a row over the same counter `i`, which is set to 0 once, all with the
bound `n_edge * n_edge * n_edge / 4`.  The result is the vector `env`. -/
def generateSelfDistanceEnvironments (floorCbrt : Nat → Nat) (env : List CollisionObject)
    (env_scale : ℚ) (n : Nat) : List CollisionObject :=
  let n_edge := wrap32 (floorCbrt n)
  let step_size := env_scale * 2 / n_edge
  let delta_size := step_size * (5 / 100)
  let single_size := step_size - 2 * delta_size
  let bound := wmul (wmul n_edge n_edge) n_edge / 4
  let i := 0
  let r1 := forLoop (fun i =>
    { geom := Shape.Box single_size single_size single_size,
      translation := place n_edge env_scale step_size delta_size single_size i }) bound i env
  let r2 := forLoop (fun i =>
    { geom := Shape.Sphere (single_size / 2),
      translation := place n_edge env_scale step_size delta_size single_size i })
    bound r1.1 r1.2
  let r3 := forLoop (fun i =>
    { geom := Shape.Cylinder (single_size / 2) single_size,
      translation := place n_edge env_scale step_size delta_size single_size i })
    bound r2.1 r2.2
  let r4 := forLoop (fun i =>
    { geom := Shape.Cone (single_size / 2) single_size,
      translation := place n_edge env_scale step_size delta_size single_size i })
    bound r3.1 r3.2
  r4.2

/-- The largest separation, over the three axes, between two axis-aligned
cubes of the given edge centred at `c1` and `c2`; the cubes are disjoint when
it is positive. -/
def cubeGap (edge : ℚ) (c1 c2 : ℚ × ℚ × ℚ) : ℚ :=
  max (max (abs (c1.1 - c2.1)) (abs (c1.2.1 - c2.2.1))) (abs (c1.2.2 - c2.2.2)) - edge

end test

namespace test

/-- The value of `n_edge`: the result of `std::floor(std::pow(n, 1 / 3.0))`
stored in an `unsigned int`. -/
def edgeCount (floorCbrt : Nat → Nat) (n : Nat) : Nat := wrap32 (floorCbrt n)

/-- The bound `n_edge * n_edge * n_edge / 4` of the four loops. -/
def loopBound (n_edge : Nat) : Nat := wmul (wmul n_edge n_edge) n_edge / 4

/-- The value of `step_size`. -/
def stepSize (env_scale : ℚ) (n_edge : Nat) : ℚ := env_scale * 2 / n_edge

/-- The value of `single_size`, the edge of the boxes. -/
def singleSize (env_scale : ℚ) (n_edge : Nat) : ℚ :=
  stepSize env_scale n_edge - 2 * (stepSize env_scale n_edge * (5 / 100))

/-- The box pushed by the first loop for the index `i`. -/
def boxAt (env_scale : ℚ) (n_edge i : Nat) : CollisionObject :=
  { geom := Shape.Box (singleSize env_scale n_edge) (singleSize env_scale n_edge)
      (singleSize env_scale n_edge),
    translation := place n_edge env_scale (stepSize env_scale n_edge)
      (stepSize env_scale n_edge * (5 / 100)) (singleSize env_scale n_edge) i }

end test

/-! ## Lemmas on the bit set -/

theorem and_two_pow_ne_zero (v k : Nat) : (v &&& 2 ^ k != 0) = v.testBit k := by
  cases h : v.testBit k
  · have hz : v &&& 2 ^ k = 0 := by
      apply Nat.eq_of_testBit_eq
      intro i
      simp only [Nat.testBit_and, Nat.zero_testBit, Nat.testBit_two_pow]
      by_cases hki : k = i
      · subst hki; simp [h]
      · simp [hki]
    simp [hz]
  · have hb : (v &&& 2 ^ k).testBit k = true := by
      simp [Nat.testBit_and, Nat.testBit_two_pow_self, h]
    have hne : v &&& 2 ^ k ≠ 0 := by
      intro h0; rw [h0] at hb; simp at hb
    simpa using hne

theorem flag_eq_testBit (n : internal.Neighbors) (d : Side) :
    n.flag d = n.value.testBit d.bit := by
  cases d
  · exact and_two_pow_ne_zero n.value 0
  · exact and_two_pow_ne_zero n.value 1
  · exact and_two_pow_ne_zero n.value 2
  · exact and_two_pow_ne_zero n.value 3
  · exact and_two_pow_ne_zero n.value 4
  · exact and_two_pow_ne_zero n.value 5

theorem mark_value (n : internal.Neighbors) (d : Side) :
    (n.mark d).value = n.value ||| 2 ^ d.bit := by
  cases d <;> rfl

theorem bit_eq_iff (d d2 : Side) : d.bit = d2.bit ↔ d = d2 := by
  cases d <;> cases d2 <;> simp [Side.bit]

theorem flag_mark (n : internal.Neighbors) (d d2 : Side) :
    (n.mark d).flag d2 = (n.flag d2 || decide (d = d2)) := by
  rw [flag_eq_testBit, mark_value, Nat.testBit_or, Nat.testBit_two_pow, flag_eq_testBit]
  congr 1
  exact decide_eq_decide.mpr (bit_eq_iff d d2)

theorem flag_new (d : Side) : internal.Neighbors.new.flag d = false := by
  cases d <;> rfl

/-! ## The comparison of two boxes -/

theorem faceNeighbour_minusX (a b : Box) : faceNeighbour Side.minusX a b ↔
    abs (a.x - b.x - a.size) < internal.e ∧ abs (a.y - b.y) < internal.e ∧
      abs (a.z - b.z) < internal.e := by
  have h1 : b.x - (a.x + a.size * -1) = -(a.x - b.x - a.size) := by ring
  have h2 : b.y - (a.y + a.size * 0) = -(a.y - b.y) := by ring
  have h3 : b.z - (a.z + a.size * 0) = -(a.z - b.z) := by ring
  simp only [faceNeighbour, displaced, Side.unit, h1, h2, h3, abs_neg]

theorem faceNeighbour_plusX (a b : Box) : faceNeighbour Side.plusX a b ↔
    abs (a.x - b.x + a.size) < internal.e ∧ abs (a.y - b.y) < internal.e ∧
      abs (a.z - b.z) < internal.e := by
  have h1 : b.x - (a.x + a.size * 1) = -(a.x - b.x + a.size) := by ring
  have h2 : b.y - (a.y + a.size * 0) = -(a.y - b.y) := by ring
  have h3 : b.z - (a.z + a.size * 0) = -(a.z - b.z) := by ring
  simp only [faceNeighbour, displaced, Side.unit, h1, h2, h3, abs_neg]

theorem faceNeighbour_minusY (a b : Box) : faceNeighbour Side.minusY a b ↔
    abs (a.x - b.x) < internal.e ∧ abs (a.y - b.y - a.size) < internal.e ∧
      abs (a.z - b.z) < internal.e := by
  have h1 : b.x - (a.x + a.size * 0) = -(a.x - b.x) := by ring
  have h2 : b.y - (a.y + a.size * -1) = -(a.y - b.y - a.size) := by ring
  have h3 : b.z - (a.z + a.size * 0) = -(a.z - b.z) := by ring
  simp only [faceNeighbour, displaced, Side.unit, h1, h2, h3, abs_neg]

theorem faceNeighbour_plusY (a b : Box) : faceNeighbour Side.plusY a b ↔
    abs (a.x - b.x) < internal.e ∧ abs (a.y - b.y + a.size) < internal.e ∧
      abs (a.z - b.z) < internal.e := by
  have h1 : b.x - (a.x + a.size * 0) = -(a.x - b.x) := by ring
  have h2 : b.y - (a.y + a.size * 1) = -(a.y - b.y + a.size) := by ring
  have h3 : b.z - (a.z + a.size * 0) = -(a.z - b.z) := by ring
  simp only [faceNeighbour, displaced, Side.unit, h1, h2, h3, abs_neg]

theorem faceNeighbour_minusZ (a b : Box) : faceNeighbour Side.minusZ a b ↔
    abs (a.x - b.x) < internal.e ∧ abs (a.y - b.y) < internal.e ∧
      abs (a.z - b.z - a.size) < internal.e := by
  have h1 : b.x - (a.x + a.size * 0) = -(a.x - b.x) := by ring
  have h2 : b.y - (a.y + a.size * 0) = -(a.y - b.y) := by ring
  have h3 : b.z - (a.z + a.size * -1) = -(a.z - b.z - a.size) := by ring
  simp only [faceNeighbour, displaced, Side.unit, h1, h2, h3, abs_neg]

theorem faceNeighbour_plusZ (a b : Box) : faceNeighbour Side.plusZ a b ↔
    abs (a.x - b.x) < internal.e ∧ abs (a.y - b.y) < internal.e ∧
      abs (a.z - b.z + a.size) < internal.e := by
  have h1 : b.x - (a.x + a.size * 0) = -(a.x - b.x) := by ring
  have h2 : b.y - (a.y + a.size * 0) = -(a.y - b.y) := by ring
  have h3 : b.z - (a.z + a.size * 1) = -(a.z - b.z + a.size) := by ring
  simp only [faceNeighbour, displaced, Side.unit, h1, h2, h3, abs_neg]

/-- In exact arithmetic the test of side `d` as the code writes it says that
the centre of `b` is within the tolerance of the displaced centre of `a`. -/
theorem passes_iff (d : Side) (a b : Box) : passes d a b ↔ faceNeighbour d a b := by
  cases d
  · exact (faceNeighbour_minusX a b).symm
  · exact (faceNeighbour_plusX a b).symm
  · exact (faceNeighbour_minusY a b).symm
  · exact (faceNeighbour_plusY a b).symm
  · exact (faceNeighbour_minusZ a b).symm
  · exact (faceNeighbour_plusZ a b).symm

/-- The chain of tests of `compareBox` marks the first side whose test
succeeds, and nothing when none does. -/
theorem compareBox_eq (a b : Box) (n : internal.Neighbors) :
    internal.compareBox a b n =
      match firstMatch a b with
      | some d => n.mark d
      | none => n := by
  simp only [internal.compareBox, ← faceNeighbour_minusX, ← faceNeighbour_plusX,
    ← faceNeighbour_minusY, ← faceNeighbour_plusY, ← faceNeighbour_minusZ,
    ← faceNeighbour_plusZ, firstMatch, Side.all, List.find?]
  split_ifs <;> simp_all [internal.Neighbors.mark]

theorem flag_compareBox (a b : Box) (n : internal.Neighbors) (d : Side) :
    (internal.compareBox a b n).flag d = (n.flag d || decide (firstMatch a b = some d)) := by
  rw [compareBox_eq]
  cases h : firstMatch a b with
  | none => simp
  | some d2 => simp [flag_mark]

theorem flag_scanBoxes (a : Box) (l : List Box) (n : internal.Neighbors) (d : Side) :
    (internal.scanBoxes a l n).flag d =
      (n.flag d || l.any (fun b => decide (firstMatch a b = some d))) := by
  induction l generalizing n with
  | nil => simp [internal.scanBoxes]
  | cons b rest ih =>
    simp only [internal.scanBoxes, ih, flag_compareBox, List.any_cons, Bool.or_assoc]

/-- Flag `d` of a box after the inner loop, from a fresh entry: some box of the
list has `d` as the first side whose test succeeds. -/
theorem flag_scan_new (a : Box) (l : List Box) (d : Side) :
    (internal.scanBoxes a l internal.Neighbors.new).flag d = true ↔
      ∃ b ∈ l, firstMatch a b = some d := by
  rw [flag_scanBoxes, flag_new]
  simp

theorem firstMatch_passes (a b : Box) :
    firstMatch a b = Side.all.find? (fun d => decide (passes d a b)) := by
  unfold firstMatch
  congr 1
  funext d
  exact decide_eq_decide.mpr (passes_iff d a b).symm

/-- The comparison of `a` against `b` marks side `d` of a fresh entry exactly
when the test of `d` succeeds and none of the tests written before it does. -/
theorem compareBox_flag_iff (a b : Box) (d : Side) :
    (internal.compareBox a b internal.Neighbors.new).flag d = true ↔
      passes d a b ∧
        ∀ d2 ∈ Side.all.takeWhile (fun d2 => decide (d2 ≠ d)), ¬ passes d2 a b := by
  rw [flag_compareBox, flag_new, firstMatch_passes]
  simp only [Bool.false_or, decide_eq_true_eq]
  rw [List.find?_eq_some]
  simp only [decide_eq_true_eq, Bool.not_eq_true', decide_eq_false_iff_not]
  constructor
  · rintro ⟨hd, l1, l2, hl, hall⟩
    refine ⟨hd, fun d2 hd2 => hall d2 ?_⟩
    have hnot : d ∉ l1 := fun hmem => hall d hmem hd
    have hl1 : Side.all.takeWhile (fun d2 => decide (d2 ≠ d)) = l1 := by
      rw [hl, List.takeWhile_append_of_pos, List.takeWhile_cons_of_neg, List.append_nil]
      · simp
      · intro x hx
        simp only [ne_eq, decide_not, Bool.not_eq_true', decide_eq_false_iff_not]
        rintro rfl
        exact hnot hx
    rw [← hl1]; exact hd2
  · rintro ⟨hd, hall⟩
    refine ⟨hd, Side.all.takeWhile (fun d2 => decide (d2 ≠ d)),
      (Side.all.dropWhile (fun d2 => decide (d2 ≠ d))).tail, ?_, hall⟩
    cases d <;> rfl

/-! ## The outer loop of `computeNeighbors` -/

theorem computeNeighborsFrom_fresh (ndebug : Bool) (boxes rest : List Box) (fixedSize : ℚ)
    (ns : List internal.Neighbors)
    (h : internal.computeNeighborsFrom ndebug boxes rest
      (List.replicate rest.length internal.Neighbors.new) fixedSize = some ns) :
    ns = rest.map (fun box => internal.scanBoxes box boxes internal.Neighbors.new) := by
  induction rest generalizing fixedSize ns with
  | nil =>
    simp [internal.computeNeighborsFrom] at h
    simp [← h]
  | cons box rest ih =>
    simp only [List.length_cons, List.replicate_succ, internal.computeNeighborsFrom] at h
    split_ifs at h with h1 h2
    · obtain ⟨r, hr, rfl⟩ := Option.map_eq_some'.mp h
      rw [ih _ _ hr, List.map_cons]
    · obtain ⟨r, hr, rfl⟩ := Option.map_eq_some'.mp h
      rw [ih _ _ hr, List.map_cons]

theorem computeNeighborsFrom_total (ndebug : Bool) (boxes rest : List Box) (fixedSize s : ℚ)
    (h : ndebug = true ∨ (AllSize rest s ∧ (fixedSize = -1 ∨ fixedSize = s))) :
    internal.computeNeighborsFrom ndebug boxes rest
      (List.replicate rest.length internal.Neighbors.new) fixedSize =
      some (rest.map (fun box => internal.scanBoxes box boxes internal.Neighbors.new)) := by
  induction rest generalizing fixedSize with
  | nil => simp [internal.computeNeighborsFrom]
  | cons box rest ih =>
    simp only [List.length_cons, List.replicate_succ, internal.computeNeighborsFrom,
      List.map_cons]
    rcases h with h | ⟨hs, hf⟩
    · split_ifs with h1 h2
      · rw [ih _ (Or.inl h)]; rfl
      · rw [ih _ (Or.inl h)]; rfl
      · simp [h] at h2
    · have hbox : box.size = s := hs box (List.mem_cons_self _ _)
      have hrest : AllSize rest s := fun b hb => hs b (List.mem_cons_of_mem _ hb)
      split_ifs with h1 h2
      · rw [ih _ (Or.inr ⟨hrest, Or.inr hbox⟩)]; rfl
      · rw [ih _ (Or.inr ⟨hrest, hf⟩)]; rfl
      · rcases hf with hf | hf
        · exact absurd hf h1
        · simp [hbox, hf] at h2

/-- Whenever `computeNeighbors` runs to its end from fresh entries, entry `i`
of its result is the inner loop of box `i` over the whole list. -/
theorem computeNeighbors_eq (ndebug : Bool) (boxes : List Box) (ns : List internal.Neighbors)
    (h : internal.computeNeighbors ndebug boxes (freshNeighbors boxes) = some ns) :
    ns = scanAll boxes :=
  computeNeighborsFrom_fresh ndebug boxes boxes (-1) ns h

/-- The function `computeNeighbors` runs to its end when assertions are compiled
out, and when all boxes have one edge size. -/
theorem computeNeighbors_total (ndebug : Bool) (boxes : List Box) (s : ℚ)
    (h : ndebug = true ∨ AllSize boxes s) :
    internal.computeNeighbors ndebug boxes (freshNeighbors boxes) = some (scanAll boxes) := by
  apply computeNeighborsFrom_total ndebug boxes boxes (-1) s
  rcases h with h | h
  · exact Or.inl h
  · exact Or.inr ⟨h, Or.inl rfl⟩

theorem scanAll_length (boxes : List Box) : (scanAll boxes).length = boxes.length := by
  simp [scanAll]

theorem scanAll_getElem? (boxes : List Box) (i : Nat) :
    (scanAll boxes)[i]? =
      (boxes[i]?).map (fun box => internal.scanBoxes box boxes internal.Neighbors.new) := by
  simp [scanAll]

/-- Flag `d` of voxel `i` in the flags of `scanAll`. -/
theorem scanAll_flag (boxes : List Box) (i : Nat) (hi : i < boxes.length) (d : Side) :
    ∃ n, (scanAll boxes)[i]? = some n ∧
      (n.flag d = true ↔ ∃ b ∈ boxes, firstMatch boxes[i] b = some d) := by
  refine ⟨internal.scanBoxes boxes[i] boxes internal.Neighbors.new, ?_, flag_scan_new _ _ _⟩
  rw [scanAll_getElem?, List.getElem?_eq_getElem hi]
  rfl

/-! ## Neighbour symmetry along x -/

theorem firstMatch_faceNeighbour (a b : Box) (d : Side) (h : firstMatch a b = some d) :
    faceNeighbour d a b := by
  have := List.find?_some h
  simpa using this

theorem firstMatch_minusX (a b : Box) (h : faceNeighbour Side.minusX a b) :
    firstMatch a b = some Side.minusX := by
  simp [firstMatch, Side.all, List.find?, h]

/-- The comparison of `a` against `b` marks the flag +x of a fresh entry exactly
when the test of +x succeeds and the test of -x, which comes first, does not. -/
theorem compareBox_plusX_iff (a b : Box) :
    (internal.compareBox a b internal.Neighbors.new).plusX = true ↔
      faceNeighbour Side.plusX a b ∧ ¬ faceNeighbour Side.minusX a b := by
  have hf := flag_compareBox a b internal.Neighbors.new Side.plusX
  simp only [internal.Neighbors.flag, flag_new] at hf
  have hnew : internal.Neighbors.new.plusX = false := rfl
  rw [hf, hnew]
  simp only [Bool.false_or, decide_eq_true_eq]
  by_cases h2 : faceNeighbour Side.plusX a b
  · by_cases h1 : faceNeighbour Side.minusX a b <;>
      simp [firstMatch, Side.all, List.find?, h1, h2]
  · exact ⟨fun h => absurd (firstMatch_faceNeighbour _ _ _ h) h2, fun h => absurd h.1 h2⟩

theorem faceNeighbour_plusX_swap (a b : Box) (hsize : a.size = b.size)
    (h : faceNeighbour Side.plusX a b) : faceNeighbour Side.minusX b a := by
  rw [faceNeighbour_plusX] at h
  rw [faceNeighbour_minusX, ← hsize]
  obtain ⟨hx, hy, hz⟩ := h
  refine ⟨?_, ?_, ?_⟩
  · rw [← abs_neg]; convert hx using 2; ring
  · rw [abs_sub_comm]; exact hy
  · rw [abs_sub_comm]; exact hz

/-- C1: neighbour symmetry along x.  In a list of boxes of one common edge size,
if the comparison of box `i` against box `j` marks the flag +x (the centre of
`j` lies within `1e-8`, per coordinate, of the centre of `i` shifted by the edge
size along x, and the test of -x did not succeed first), then `computeNeighbors`
runs to its end and, in its result, the flag -x of box `j` is set. -/
theorem computeNeighbors_plusX_symm (ndebug : Bool) (boxes : List Box) (s : ℚ)
    (hs : AllSize boxes s) (i j : Nat) (hi : i < boxes.length) (hj : j < boxes.length)
    (h : (internal.compareBox boxes[i] boxes[j] internal.Neighbors.new).plusX = true) :
    ∃ ns, internal.computeNeighbors ndebug boxes (freshNeighbors boxes) = some ns ∧
      ∃ nB, ns[j]? = some nB ∧ nB.minusX = true := by
  refine ⟨scanAll boxes, computeNeighbors_total ndebug boxes s (Or.inr hs), ?_⟩
  obtain ⟨nB, hn, hflag⟩ := scanAll_flag boxes j hj Side.minusX
  refine ⟨nB, hn, hflag.mpr ⟨boxes[i], List.getElem_mem hi, ?_⟩⟩
  apply firstMatch_minusX
  apply faceNeighbour_plusX_swap
  · rw [hs _ (List.getElem_mem hi), hs _ (List.getElem_mem hj)]
  · exact ((compareBox_plusX_iff _ _).mp h).1

theorem computeNeighbors_plusX_symm_witness :
    ∃ ns, internal.computeNeighbors false
        [⟨0, 0, 0, 1, 0, 0⟩, ⟨1, 0, 0, 1, 0, 0⟩]
        (freshNeighbors [⟨0, 0, 0, 1, 0, 0⟩, ⟨1, 0, 0, 1, 0, 0⟩]) = some ns ∧
      ∃ nB, ns[1]? = some nB ∧ nB.minusX = true :=
  computeNeighbors_plusX_symm false [⟨0, 0, 0, 1, 0, 0⟩, ⟨1, 0, 0, 1, 0, 0⟩] 1
    (by simp [AllSize]) 0 1 (by decide) (by decide)
    (by
      rw [compareBox_plusX_iff]
      simp only [faceNeighbour, displaced, Side.unit, internal.e, List.getElem_cons_zero,
        List.getElem_cons_succ]
      norm_num [abs_lt])

/-! ## Neighbour detection -/

theorem e_pos : 0 < internal.e := by norm_num [internal.e]

/-- For an edge size of at least twice the tolerance, in absolute value, at
most one of the six tests succeeds for a pair of boxes. -/
theorem faceNeighbour_unique (a b : Box) (hsize : 2 * internal.e ≤ abs a.size)
    (d d2 : Side) (h1 : faceNeighbour d a b) (h2 : faceNeighbour d2 a b) : d = d2 := by
  have he := e_pos
  simp only [faceNeighbour, displaced, abs_lt] at h1 h2
  obtain ⟨⟨h1a, h1b⟩, ⟨h1c, h1d⟩, h1e, h1f⟩ := h1
  obtain ⟨⟨h2a, h2b⟩, ⟨h2c, h2d⟩, h2e, h2f⟩ := h2
  rcases le_abs.mp hsize with hpos | hneg
  · cases d <;> cases d2 <;> first
      | rfl
      | (exfalso; simp only [Side.unit] at *; linarith)
  · cases d <;> cases d2 <;> first
      | rfl
      | (exfalso; simp only [Side.unit] at *; linarith)

/-- A box whose edge size is at least the tolerance, in absolute value, passes
none of the six tests against itself. -/
theorem not_faceNeighbour_self (a : Box) (hsize : internal.e ≤ abs a.size) (d : Side) :
    ¬ faceNeighbour d a a := by
  intro h
  simp only [faceNeighbour, displaced, abs_lt] at h
  obtain ⟨⟨ha, hb⟩, ⟨hc, hd⟩, he, hf⟩ := h
  rcases le_abs.mp hsize with hpos | hneg
  · cases d <;> simp only [Side.unit] at * <;> linarith
  · cases d <;> simp only [Side.unit] at * <;> linarith

theorem firstMatch_isSome (a b : Box) (d : Side) (h : faceNeighbour d a b) :
    ∃ d2, firstMatch a b = some d2 := by
  cases hf : firstMatch a b with
  | some d2 => exact ⟨d2, rfl⟩
  | none =>
    have hall := List.find?_eq_none.mp hf d (by cases d <;> simp [Side.all])
    simp [h] at hall

/-- For an edge size of at least twice the tolerance the order of the tests is
immaterial: the side marked by a comparison is the one whose test succeeds. -/
theorem firstMatch_iff (a b : Box) (hsize : 2 * internal.e ≤ abs a.size) (d : Side) :
    firstMatch a b = some d ↔ faceNeighbour d a b := by
  constructor
  · exact firstMatch_faceNeighbour a b d
  · intro h
    obtain ⟨d2, hd2⟩ := firstMatch_isSome a b d h
    rw [hd2, faceNeighbour_unique a b hsize d2 d (firstMatch_faceNeighbour a b d2 hd2) h]

/-- C2, as stated, fails: a single voxel of edge size `1e-9` (positive, below
the tolerance) passes the test of -x against itself, so its flag -x is set
although the list holds no other voxel. -/
theorem computeNeighbors_self_neighbour :
    AllSize [(⟨0, 0, 0, 1 / 1000000000, 0, 0⟩ : Box)] (1 / 1000000000) ∧
    ∃ ns, internal.computeNeighbors false [⟨0, 0, 0, 1 / 1000000000, 0, 0⟩]
        (freshNeighbors [⟨0, 0, 0, 1 / 1000000000, 0, 0⟩]) = some ns ∧
      ∃ n, ns[0]? = some n ∧ n.flag Side.minusX = true ∧
        ¬ ∃ j, ∃ hj : j < [(⟨0, 0, 0, 1 / 1000000000, 0, 0⟩ : Box)].length, j ≠ 0 ∧
          faceNeighbour Side.minusX [(⟨0, 0, 0, 1 / 1000000000, 0, 0⟩ : Box)][0]
            [(⟨0, 0, 0, 1 / 1000000000, 0, 0⟩ : Box)][j] := by
  refine ⟨by simp [AllSize], [⟨1⟩], ?_, ⟨1⟩, rfl, rfl, ?_⟩
  · simp only [internal.computeNeighbors, freshNeighbors, List.length_singleton,
      List.replicate_succ, List.replicate_zero, internal.computeNeighborsFrom,
      internal.scanBoxes, internal.compareBox, internal.e]
    norm_num [abs_lt, internal.Neighbors.hasNeighboordMinusX, internal.Neighbors.new]
  · rintro ⟨j, hj, hne, -⟩
    simp only [List.length_singleton] at hj
    omega

/-- C2, amended: for every list of boxes of one common edge size `s` with
`|s| ≥ 2e-8`, every voxel `i` and every side `d`, `computeNeighbors` runs to
completion and the flag `d` of voxel `i` is set if and only if some other voxel
`j ≠ i` of the list passes the test of `d` in the comparison of voxel `i`
against it, the test being the one `computeNeighbors` evaluates. -/
theorem computeNeighbors_flag_iff (ndebug : Bool) (boxes : List Box) (s : ℚ)
    (hs : AllSize boxes s) (hsize : 2 * internal.e ≤ abs s)
    (i : Nat) (hi : i < boxes.length) (d : Side) :
    ∃ ns, internal.computeNeighbors ndebug boxes (freshNeighbors boxes) = some ns ∧
      ∃ n, ns[i]? = some n ∧
        (n.flag d = true ↔
          ∃ j, ∃ hj : j < boxes.length, j ≠ i ∧ passes d boxes[i] boxes[j]) := by
  refine ⟨scanAll boxes, computeNeighbors_total ndebug boxes s (Or.inr hs), ?_⟩
  obtain ⟨n, hn, hflag⟩ := scanAll_flag boxes i hi d
  have hsi : 2 * internal.e ≤ abs boxes[i].size := by
    rw [hs _ (List.getElem_mem hi)]; exact hsize
  refine ⟨n, hn, hflag.trans ⟨?_, ?_⟩⟩
  · rintro ⟨b, hb, hm⟩
    obtain ⟨j, hj, rfl⟩ := List.getElem_of_mem hb
    have hnb := (firstMatch_iff _ _ hsi d).mp hm
    refine ⟨j, hj, ?_, (passes_iff _ _ _).mpr hnb⟩
    rintro rfl
    exact not_faceNeighbour_self _ (by linarith [e_pos]) d hnb
  · rintro ⟨j, hj, -, hnb⟩
    exact ⟨boxes[j], List.getElem_mem hj,
      (firstMatch_iff _ _ hsi d).mpr ((passes_iff _ _ _).mp hnb)⟩

theorem computeNeighbors_flag_iff_witness :
    ∃ ns, internal.computeNeighbors false
        [⟨0, 0, 0, 1, 0, 0⟩, ⟨0, 1, 0, 1, 0, 0⟩]
        (freshNeighbors [⟨0, 0, 0, 1, 0, 0⟩, ⟨0, 1, 0, 1, 0, 0⟩]) = some ns ∧
      ∃ n, ns[0]? = some n ∧
        (n.flag Side.plusY = true ↔
          ∃ j, ∃ hj : j < [(⟨0, 0, 0, 1, 0, 0⟩ : Box), ⟨0, 1, 0, 1, 0, 0⟩].length, j ≠ 0 ∧
            passes Side.plusY
              [(⟨0, 0, 0, 1, 0, 0⟩ : Box), ⟨0, 1, 0, 1, 0, 0⟩][0]
              [(⟨0, 0, 0, 1, 0, 0⟩ : Box), ⟨0, 1, 0, 1, 0, 0⟩][j]) :=
  computeNeighbors_flag_iff false [⟨0, 0, 0, 1, 0, 0⟩, ⟨0, 1, 0, 1, 0, 0⟩] 1
    (by simp [AllSize]) (by norm_num [internal.e]) 0 (by decide) Side.plusY

/-! ## The mesh loop -/

theorem addBox_vertices (i : Nat) (box : Box) (n : internal.Neighbors) (m : Mesh) :
    (addBox i box n m).vertices = m.vertices ++ corners box := by
  have h : (2 : ℚ)⁻¹ * box.size = box.size / 2 := by ring
  simp [addBox, corners, corner, List.range, List.range.loop, h, Nat.testBit]

theorem addBox_faces (i : Nat) (box : Box) (n : internal.Neighbors) (m : Mesh) :
    (addBox i box n m).faces = m.faces ++ keptQuads i n := by
  simp only [addBox, keptQuads, Side.all, List.filter, internal.Neighbors.flag, quad]
  cases n.minusX <;> cases n.plusX <;> cases n.minusY <;> cases n.plusY <;>
    cases n.minusZ <;> cases n.plusZ <;> simp [quad]

theorem buildMeshFrom_eq (i : Nat) (boxes : List Box) (ns : List internal.Neighbors)
    (m : Mesh) (hlen : ns.length = boxes.length) :
    buildMeshFrom i boxes ns m =
      some { vertices := m.vertices ++ vertsOf boxes, faces := m.faces ++ facesOf i ns } := by
  induction boxes generalizing i ns m with
  | nil =>
    cases ns with
    | nil => simp [buildMeshFrom, vertsOf, facesOf]
    | cons n rest => simp at hlen
  | cons box rest ih =>
    cases ns with
    | nil => simp at hlen
    | cons n ns =>
      simp only [List.length_cons, add_left_inj] at hlen
      simp only [buildMeshFrom, ih _ _ _ hlen, addBox_vertices, addBox_faces, vertsOf,
        facesOf, List.append_assoc]

/-- The mesh built by `exportAsObjFile` whenever `computeNeighbors` runs to its
end: the corners of all boxes and the quads whose flag is clear. -/
theorem buildMesh_eq (ndebug : Bool) (boxes : List Box) (ns : List internal.Neighbors)
    (h : internal.computeNeighbors ndebug boxes (freshNeighbors boxes) = some ns) :
    buildMesh ndebug boxes = some { vertices := vertsOf boxes, faces := facesOf 0 ns } := by
  have hns := computeNeighbors_eq ndebug boxes ns h
  have hlen : ns.length = boxes.length := by rw [hns, scanAll_length]
  simp only [buildMesh]
  rw [show List.replicate boxes.length internal.Neighbors.new = freshNeighbors boxes from rfl, h]
  simp only [buildMeshFrom_eq 0 boxes ns _ hlen, List.nil_append]

theorem buildMesh_none (ndebug : Bool) (boxes : List Box)
    (h : internal.computeNeighbors ndebug boxes (freshNeighbors boxes) = none) :
    buildMesh ndebug boxes = none := by
  simp only [buildMesh]
  rw [show List.replicate boxes.length internal.Neighbors.new = freshNeighbors boxes from rfl, h]

/-! ## Faces of the mesh -/

theorem quad_inj (i j : Nat) (d d2 : Side) (h : quad i d = quad j d2) : i = j ∧ d = d2 := by
  cases d <;> cases d2 <;> simp only [quad, Prod.mk.injEq] at h <;>
    first
      | exact ⟨by omega, rfl⟩
      | (exfalso; omega)

theorem mem_sides (d : Side) : d ∈ Side.all := by
  cases d <;> simp [Side.all]

theorem mem_keptQuads (i : Nat) (n : internal.Neighbors) (q : Quad) :
    q ∈ keptQuads i n ↔ ∃ d, n.flag d = false ∧ q = quad i d := by
  simp only [keptQuads, List.mem_map, List.mem_filter, mem_sides, true_and,
    Bool.not_eq_true']
  constructor
  · rintro ⟨d, hd, rfl⟩
    exact ⟨d, hd, rfl⟩
  · rintro ⟨d, hd, rfl⟩
    exact ⟨d, hd, rfl⟩

theorem mem_facesOf (i0 : Nat) (ns : List internal.Neighbors) (q : Quad) :
    q ∈ facesOf i0 ns ↔
      ∃ k n d, ns[k]? = some n ∧ n.flag d = false ∧ q = quad (i0 + k) d := by
  induction ns generalizing i0 with
  | nil => simp [facesOf]
  | cons n rest ih =>
    simp only [facesOf, List.mem_append, mem_keptQuads, ih]
    constructor
    · rintro (⟨d, hd, rfl⟩ | ⟨k, n2, d, hk, hd, rfl⟩)
      · exact ⟨0, n, d, by simp, hd, rfl⟩
      · exact ⟨k + 1, n2, d, by simpa using hk, hd, by rw [Nat.add_assoc, Nat.add_comm 1 k]⟩
    · rintro ⟨k, n2, d, hk, hd, rfl⟩
      cases k with
      | zero =>
        simp only [List.getElem?_cons_zero, Option.some.injEq] at hk
        subst hk
        exact Or.inl ⟨d, hd, rfl⟩
      | succ k =>
        simp only [List.getElem?_cons_succ] at hk
        exact Or.inr ⟨k, n2, d, hk, hd, by rw [Nat.add_assoc, Nat.add_comm 1 k]⟩

theorem keptQuads_length (i : Nat) (n : internal.Neighbors) :
    (keptQuads i n).length + n.count = 6 := by
  simp only [keptQuads, internal.Neighbors.count, Side.all, List.length_map, List.filter]
  cases n.flag Side.minusX <;> cases n.flag Side.plusX <;> cases n.flag Side.minusY <;>
    cases n.flag Side.plusY <;> cases n.flag Side.minusZ <;> cases n.flag Side.plusZ <;> rfl

theorem facesOf_length (i : Nat) (ns : List internal.Neighbors) :
    (facesOf i ns).length + (ns.map internal.Neighbors.count).sum = 6 * ns.length := by
  induction ns generalizing i with
  | nil => simp [facesOf]
  | cons n rest ih =>
    have h1 := keptQuads_length i n
    have h2 := ih (i + 1)
    simp only [facesOf, List.length_append, List.map_cons, List.sum_cons, List.length_cons]
    omega

/-- C5: face culling.  For every list of boxes on which `computeNeighbors` runs
to its end (assertions compiled out, or one common edge size), with `ns` the
flags it leaves: for every voxel `i` and side `d`, the quad of side `d` of
voxel `i` is among the faces built by `exportAsObjFile` if and only if flag `d`
of voxel `i` is clear; every face built is such a quad; and the number of faces
plus the number of set flags is `6N`. -/
theorem exportAsObjFile_face_culling (ndebug : Bool) (boxes : List Box) (s : ℚ)
    (hrun : ndebug = true ∨ AllSize boxes s) :
    ∃ ns mesh, internal.computeNeighbors ndebug boxes (freshNeighbors boxes) = some ns ∧
      buildMesh ndebug boxes = some mesh ∧
      ns.length = boxes.length ∧
      (∀ i n d, ns[i]? = some n → (quad i d ∈ mesh.faces ↔ n.flag d = false)) ∧
      (∀ q ∈ mesh.faces, ∃ i n d, ns[i]? = some n ∧ n.flag d = false ∧ q = quad i d) ∧
      mesh.faces.length + (ns.map internal.Neighbors.count).sum = 6 * boxes.length := by
  have hns := computeNeighbors_total ndebug boxes s hrun
  refine ⟨scanAll boxes, _, hns, buildMesh_eq ndebug boxes _ hns, scanAll_length boxes,
    ?_, ?_, ?_⟩
  · intro i n d hi
    simp only [mem_facesOf, Nat.zero_add]
    constructor
    · rintro ⟨k, n2, d2, hk, hd, hq⟩
      obtain ⟨rfl, rfl⟩ := quad_inj _ _ _ _ hq
      rw [hi] at hk
      cases hk
      exact hd
    · intro hd
      exact ⟨i, n, d, hi, hd, rfl⟩
  · intro q hq
    simpa only [mem_facesOf, Nat.zero_add] using hq
  · have := facesOf_length 0 (scanAll boxes)
    rw [scanAll_length] at this
    exact this

theorem exportAsObjFile_face_culling_witness :
    ∃ ns mesh, internal.computeNeighbors false
        [⟨0, 0, 0, 1, 0, 0⟩, ⟨1, 0, 0, 1, 0, 0⟩]
        (freshNeighbors [⟨0, 0, 0, 1, 0, 0⟩, ⟨1, 0, 0, 1, 0, 0⟩]) = some ns ∧
      buildMesh false [⟨0, 0, 0, 1, 0, 0⟩, ⟨1, 0, 0, 1, 0, 0⟩] = some mesh ∧
      ns.length = [(⟨0, 0, 0, 1, 0, 0⟩ : Box), ⟨1, 0, 0, 1, 0, 0⟩].length ∧
      (∀ i n d, ns[i]? = some n → (quad i d ∈ mesh.faces ↔ n.flag d = false)) ∧
      (∀ q ∈ mesh.faces, ∃ i n d, ns[i]? = some n ∧ n.flag d = false ∧ q = quad i d) ∧
      mesh.faces.length + (ns.map internal.Neighbors.count).sum =
        6 * [(⟨0, 0, 0, 1, 0, 0⟩ : Box), ⟨1, 0, 0, 1, 0, 0⟩].length :=
  exportAsObjFile_face_culling false [⟨0, 0, 0, 1, 0, 0⟩, ⟨1, 0, 0, 1, 0, 0⟩] 1
    (Or.inr (by simp [AllSize]))

/-! ## Face counts -/

theorem count_eq_zero (n : internal.Neighbors) (h : ∀ d, n.flag d = false) : n.count = 0 := by
  simp [internal.Neighbors.count, List.filter_eq_nil_iff, h]

/-- C3, as stated, fails: the single voxel of edge size `1e-9` has no other
voxel next to it, yet `exportAsObjFile` builds 5 faces for it, not 6. -/
theorem exportAsObjFile_tiny_voxel_faces :
    AllSize [(⟨0, 0, 0, 1 / 1000000000, 0, 0⟩ : Box)] (1 / 1000000000) ∧
    (∀ i j, ∀ hi : i < [(⟨0, 0, 0, 1 / 1000000000, 0, 0⟩ : Box)].length,
      ∀ hj : j < [(⟨0, 0, 0, 1 / 1000000000, 0, 0⟩ : Box)].length, i ≠ j →
        ∀ d, ¬ faceNeighbour d [(⟨0, 0, 0, 1 / 1000000000, 0, 0⟩ : Box)][i]
          [(⟨0, 0, 0, 1 / 1000000000, 0, 0⟩ : Box)][j]) ∧
    ∃ mesh, buildMesh false [⟨0, 0, 0, 1 / 1000000000, 0, 0⟩] = some mesh ∧
      mesh.faces.length = 5 := by
  refine ⟨by simp [AllSize], ?_, ?_⟩
  · intro i j hi hj hne
    simp only [List.length_singleton] at hi hj
    omega
  · have hns : internal.computeNeighbors false [⟨0, 0, 0, 1 / 1000000000, 0, 0⟩]
        (freshNeighbors [⟨0, 0, 0, 1 / 1000000000, 0, 0⟩]) = some [⟨1⟩] := by
      simp only [internal.computeNeighbors, freshNeighbors, List.length_singleton,
        List.replicate_succ, List.replicate_zero, internal.computeNeighborsFrom,
        internal.scanBoxes, internal.compareBox, internal.e]
      norm_num [abs_lt, internal.Neighbors.hasNeighboordMinusX, internal.Neighbors.new]
    exact ⟨_, buildMesh_eq _ _ _ hns, rfl⟩

/-- C3, amended: for every list of `N` boxes of one common edge size `s` with
`|s| ≥ 1e-8` in which no voxel passes any of the six tests of
`computeNeighbors` in the comparison of another voxel against it,
`exportAsObjFile` builds exactly `6N` quad faces. -/
theorem exportAsObjFile_faces_no_adjacency (ndebug : Bool) (boxes : List Box) (s : ℚ)
    (hs : AllSize boxes s) (hsize : internal.e ≤ abs s)
    (hno : ∀ i j, ∀ hi : i < boxes.length, ∀ hj : j < boxes.length, i ≠ j →
      ∀ d, ¬ passes d boxes[i] boxes[j]) :
    ∃ mesh, buildMesh ndebug boxes = some mesh ∧ mesh.faces.length = 6 * boxes.length := by
  have hns := computeNeighbors_total ndebug boxes s (Or.inr hs)
  refine ⟨_, buildMesh_eq ndebug boxes _ hns, ?_⟩
  have hlen := facesOf_length 0 (scanAll boxes)
  have hzero : ((scanAll boxes).map internal.Neighbors.count).sum = 0 := by
    apply List.sum_eq_zero
    intro c hc
    obtain ⟨n, hn, rfl⟩ := List.mem_map.mp hc
    obtain ⟨a, ha, rfl⟩ := List.mem_map.mp hn
    apply count_eq_zero
    intro d
    by_contra hflag
    rw [Bool.not_eq_false] at hflag
    obtain ⟨b, hb, hm⟩ := (flag_scan_new a boxes d).mp hflag
    have hnb := firstMatch_faceNeighbour a b d hm
    obtain ⟨i, hi, rfl⟩ := List.getElem_of_mem ha
    obtain ⟨j, hj, rfl⟩ := List.getElem_of_mem hb
    by_cases hij : i = j
    · subst hij
      exact not_faceNeighbour_self _ (by rw [hs _ (List.getElem_mem hi)]; exact hsize) d hnb
    · exact hno i j hi hj hij d ((passes_iff _ _ _).mpr hnb)
  rw [hzero, scanAll_length] at hlen
  simpa using hlen

theorem exportAsObjFile_faces_no_adjacency_witness :
    ∃ mesh, buildMesh false [⟨0, 0, 0, 1, 0, 0⟩, ⟨3, 0, 0, 1, 0, 0⟩] = some mesh ∧
      mesh.faces.length = 6 * [(⟨0, 0, 0, 1, 0, 0⟩ : Box), ⟨3, 0, 0, 1, 0, 0⟩].length :=
  exportAsObjFile_faces_no_adjacency false [⟨0, 0, 0, 1, 0, 0⟩, ⟨3, 0, 0, 1, 0, 0⟩] 1
    (by simp [AllSize]) (by norm_num [internal.e])
    (by
      intro i j hi hj hne d
      simp only [List.length_cons, List.length_nil] at hi hj
      have hcases : (i = 0 ∧ j = 1) ∨ (i = 1 ∧ j = 0) := by omega
      rcases hcases with ⟨rfl, rfl⟩ | ⟨rfl, rfl⟩ <;> cases d <;>
        norm_num [passes, internal.e, abs_lt])

/-! ## Two voxels sharing one face -/

theorem faceNeighbour_displaced (a b : Box) (d : Side) (hsize : internal.e ≤ a.size)
    (hpos : (b.x, b.y, b.z) = displaced a d) (d2 : Side) :
    faceNeighbour d2 a b ↔ d2 = d := by
  have he := e_pos
  obtain ⟨hx, hy, hz⟩ : b.x = a.x + a.size * d.unit.1 ∧ b.y = a.y + a.size * d.unit.2.1 ∧
      b.z = a.z + a.size * d.unit.2.2 := by
    simpa [displaced, Prod.ext_iff] using hpos
  constructor
  · intro h
    simp only [faceNeighbour, displaced, abs_lt, hx, hy, hz] at h
    obtain ⟨⟨h1, h2⟩, ⟨h3, h4⟩, h5, h6⟩ := h
    cases d <;> cases d2 <;> first
      | rfl
      | (exfalso; simp only [Side.unit] at *; linarith)
  · rintro rfl
    simp [faceNeighbour, displaced, hx, hy, hz, he]

theorem displaced_opposite (a b : Box) (d : Side) (hb : b.size = a.size)
    (hpos : (b.x, b.y, b.z) = displaced a d) :
    (a.x, a.y, a.z) = displaced b d.opposite := by
  obtain ⟨hx, hy, hz⟩ : b.x = a.x + a.size * d.unit.1 ∧ b.y = a.y + a.size * d.unit.2.1 ∧
      b.z = a.z + a.size * d.unit.2.2 := by
    simpa [displaced, Prod.ext_iff] using hpos
  simp only [displaced, hb, hx, hy, hz, Prod.mk.injEq]
  cases d <;> simp [Side.opposite, Side.unit]

theorem firstMatch_of_iff (a b : Box) (d : Side) (h : ∀ d2, faceNeighbour d2 a b ↔ d2 = d) :
    firstMatch a b = some d := by
  obtain ⟨d2, hd2⟩ := firstMatch_isSome a b d ((h d).mpr rfl)
  rw [hd2, (h d2).mp (firstMatch_faceNeighbour a b d2 hd2)]

theorem firstMatch_self (a : Box) (hsize : internal.e ≤ abs a.size) : firstMatch a a = none := by
  cases hf : firstMatch a a with
  | none => rfl
  | some d => exact absurd (firstMatch_faceNeighbour a a d hf) (not_faceNeighbour_self a hsize d)

theorem keptQuads_mark_new (i : Nat) (d : Side) :
    keptQuads i (internal.Neighbors.new.mark d) =
      (Side.all.filter (fun d2 => decide (d2 ≠ d))).map (quad i) := by
  unfold keptQuads
  congr 1
  apply List.filter_congr
  intro d2 _
  rw [flag_mark, flag_new]
  cases d <;> cases d2 <;> rfl

/-- C4: two boxes `a`, `b` of the same edge size `s ≥ 1e-8`, the centre of `b`
being the centre of `a` displaced by exactly `s` towards side `d` (any of the
six, so along x, y or z, either way round).  Exporting the list `[a, b]` builds
exactly 10 faces: the five quads of voxel 0 other than side `d`, then the five
quads of voxel 1 other than the side opposite to `d`. -/
theorem exportAsObjFile_two_adjacent (ndebug : Bool) (a b : Box) (d : Side)
    (hsize : internal.e ≤ a.size) (hb : b.size = a.size)
    (hpos : (b.x, b.y, b.z) = displaced a d) :
    ∃ mesh, buildMesh ndebug [a, b] = some mesh ∧ mesh.faces.length = 10 ∧
      mesh.faces = (Side.all.filter (fun d2 => decide (d2 ≠ d))).map (quad 0) ++
        (Side.all.filter (fun d2 => decide (d2 ≠ d.opposite))).map (quad 1) := by
  have hsa : internal.e ≤ abs a.size := le_trans hsize (le_abs_self _)
  have hsb : internal.e ≤ abs b.size := by rw [hb]; exact hsa
  have hab := firstMatch_of_iff a b d (faceNeighbour_displaced a b d hsize hpos)
  have hba := firstMatch_of_iff b a d.opposite
    (faceNeighbour_displaced b a d.opposite (by rw [hb]; exact hsize)
      (displaced_opposite a b d hb hpos))
  have haa := firstMatch_self a hsa
  have hbb := firstMatch_self b hsb
  have hall : AllSize [a, b] a.size := by
    intro c hc
    simp only [List.mem_cons, List.mem_singleton, List.not_mem_nil, or_false] at hc
    rcases hc with rfl | rfl
    · rfl
    · exact hb
  have hns := computeNeighbors_total ndebug [a, b] a.size (Or.inr hall)
  have hscan : scanAll [a, b] =
      [internal.Neighbors.new.mark d, internal.Neighbors.new.mark d.opposite] := by
    simp only [scanAll, List.map_cons, List.map_nil, internal.scanBoxes, compareBox_eq,
      hab, hba, haa, hbb]
  rw [hscan] at hns
  refine ⟨_, buildMesh_eq ndebug [a, b] _ hns, ?_, ?_⟩
  · simp only [facesOf, keptQuads_mark_new, List.append_nil, List.length_append,
      List.length_map]
    cases d <;> rfl
  · simp only [facesOf, keptQuads_mark_new, List.append_nil]

theorem exportAsObjFile_two_adjacent_witness :
    ∃ mesh, buildMesh false [⟨0, 0, 0, 1, 0, 0⟩, ⟨0, 0, 1, 1, 0, 0⟩] = some mesh ∧
      mesh.faces.length = 10 ∧
      mesh.faces = (Side.all.filter (fun d2 => decide (d2 ≠ Side.plusZ))).map (quad 0) ++
        (Side.all.filter (fun d2 => decide (d2 ≠ Side.plusZ.opposite))).map (quad 1) :=
  exportAsObjFile_two_adjacent false ⟨0, 0, 0, 1, 0, 0⟩ ⟨0, 0, 1, 1, 0, 0⟩ Side.plusZ
    (by norm_num [internal.e]) rfl (by simp [displaced, Side.unit])

/-! ## Vertices of the mesh -/

theorem corners_length (b : Box) : (corners b).length = 8 := by
  simp [corners]

theorem corners_getElem? (b : Box) (k : Nat) (hk : k < 8) :
    (corners b)[k]? = some (corner b k) := by
  simp [corners, List.getElem?_map, List.getElem?_range hk]

theorem vertsOf_length (boxes : List Box) : (vertsOf boxes).length = 8 * boxes.length := by
  induction boxes with
  | nil => rfl
  | cons b rest ih =>
    simp only [vertsOf, List.length_append, corners_length, ih, List.length_cons]
    omega

theorem vertsOf_getElem? (boxes : List Box) (i : Nat) (hi : i < boxes.length) (k : Nat)
    (hk : k < 8) : (vertsOf boxes)[8 * i + k]? = some (corner boxes[i] k) := by
  induction boxes generalizing i with
  | nil => simp at hi
  | cons b rest ih =>
    cases i with
    | zero =>
      simp only [vertsOf, Nat.mul_zero, Nat.zero_add, List.getElem_cons_zero]
      rw [List.getElem?_append_left (by rw [corners_length]; exact hk)]
      exact corners_getElem? b k hk
    | succ i =>
      simp only [List.length_cons, Nat.add_lt_add_iff_right] at hi
      simp only [vertsOf, List.getElem_cons_succ]
      rw [List.getElem?_append_right (by rw [corners_length]; omega), corners_length]
      have hidx : 8 * (i + 1) + k - 8 = 8 * i + k := by omega
      rw [hidx]
      exact ih i hi

/-- C6: vertex list.  For every list of `N` boxes on which `computeNeighbors`
runs to its end (assertions compiled out, or one common edge size), whatever
the adjacency, `exportAsObjFile` builds exactly `8N` vertices, and for every
voxel `i` and `k = 0..7` the entry at 0-based position `8i + k` is the corner
`(x ± s/2, y ± s/2, z ± s/2)` of box `i`, bit 0 of `k` giving the sign on x,
bit 1 on y and bit 2 on z (clear is minus, set is plus). -/
theorem exportAsObjFile_vertices (ndebug : Bool) (boxes : List Box) (s : ℚ)
    (hrun : ndebug = true ∨ AllSize boxes s) :
    ∃ mesh, buildMesh ndebug boxes = some mesh ∧
      mesh.vertices.length = 8 * boxes.length ∧
      ∀ i, ∀ hi : i < boxes.length, ∀ k, k < 8 →
        mesh.vertices[8 * i + k]? = some (corner boxes[i] k) := by
  have hns := computeNeighbors_total ndebug boxes s hrun
  exact ⟨_, buildMesh_eq ndebug boxes _ hns, vertsOf_length boxes,
    fun i hi k hk => vertsOf_getElem? boxes i hi k hk⟩

theorem exportAsObjFile_vertices_witness :
    ∃ mesh, buildMesh false [⟨0, 0, 0, 2, 0, 0⟩, ⟨2, 0, 0, 2, 0, 0⟩] = some mesh ∧
      mesh.vertices.length = 8 * [(⟨0, 0, 0, 2, 0, 0⟩ : Box), ⟨2, 0, 0, 2, 0, 0⟩].length ∧
      ∀ i, ∀ hi : i < [(⟨0, 0, 0, 2, 0, 0⟩ : Box), ⟨2, 0, 0, 2, 0, 0⟩].length, ∀ k, k < 8 →
        mesh.vertices[8 * i + k]? =
          some (corner [(⟨0, 0, 0, 2, 0, 0⟩ : Box), ⟨2, 0, 0, 2, 0, 0⟩][i] k) :=
  exportAsObjFile_vertices false [⟨0, 0, 0, 2, 0, 0⟩, ⟨2, 0, 0, 2, 0, 0⟩] 2
    (Or.inr (by simp [AllSize]))

/-! ## The text written to the file -/

theorem put_some (w s : String) : Ofstream.put (some w) s = some (w ++ s) := rfl

theorem unlines_cons (l : String) (rest : List String) :
    unlines (l :: rest) = l ++ "\n" ++ unlines rest := rfl

theorem unlines_append (l1 l2 : List String) : unlines (l1 ++ l2) = unlines l1 ++ unlines l2 := by
  induction l1 with
  | nil => simp [unlines]
  | cons l rest ih =>
    rw [List.cons_append, unlines_cons, unlines_cons, ih]
    simp only [String.append_assoc]

theorem writeVertices_some (fmt : ℚ → String) (vs : List Vertex) (w : String) :
    writeVertices fmt vs (some w) = some (w ++ unlines (vs.map (vertexLine fmt))) := by
  induction vs generalizing w with
  | nil => simp [writeVertices, unlines]
  | cons v rest ih =>
    simp only [writeVertices, put_some, ih, List.map_cons, unlines, vertexLine, endl,
      String.append_assoc]

theorem writeFaces_some (fs : List Quad) (w : String) :
    writeFaces fs (some w) = some (w ++ unlines (fs.map faceLine)) := by
  induction fs generalizing w with
  | nil => simp [writeFaces, unlines]
  | cons f rest ih =>
    simp only [writeFaces, put_some, ih, List.map_cons, unlines, faceLine, endl,
      String.append_assoc]

/-- What `exportAsObjFile` does once the mesh is built. -/
theorem exportAsObjFile_of_mesh (ndebug : Bool) (fmt : ℚ → String) (boxes : List Box)
    (filename : String) (opens : Bool) (mesh : Mesh) (h : buildMesh ndebug boxes = some mesh) :
    exportAsObjFile ndebug fmt boxes filename opens =
      if opens then some (Outcome.returned (some (unlines (objLines fmt mesh))))
      else some (Outcome.runtime_error ("failed to open file \"" ++ filename ++ "\"") none) := by
  cases opens with
  | false => simp [exportAsObjFile, h]
  | true =>
    have htext : unlines (objLines fmt mesh) =
        "# list of vertices" ++ ("\n" ++ (unlines (mesh.vertices.map (vertexLine fmt)) ++
          ("\n" ++ ("# list of faces" ++ ("\n" ++ unlines (mesh.faces.map faceLine)))))) := by
      rw [objLines, unlines_append, unlines_cons, unlines_cons, unlines_cons]
      simp only [String.append_assoc, String.empty_append]
    rw [htext]
    simp only [exportAsObjFile, h, if_true, Option.isSome_some, Bool.not_true, put_some,
      writeVertices_some, writeFaces_some, endl,
      String.append_assoc, String.empty_append, Bool.false_eq_true, if_false]

/-- C7: layout of the file.  When the destination opens, for every list of `N`
boxes on which `computeNeighbors` runs to its end, with `F` the number of faces
built, the text written by `exportAsObjFile` is exactly, in order: the line
`# list of vertices`, the `8N` lines `v x y z` of the vertices in the order of
the vertex list, one empty line, the line `# list of faces`, and the `F` lines
`f i1 i2 i3 i4` of the faces in the order of the face list; that is
`8N + F + 3` lines, each ended by an end of line, and nothing else. -/
theorem exportAsObjFile_layout (ndebug : Bool) (fmt : ℚ → String) (boxes : List Box)
    (filename : String) (s : ℚ) (hrun : ndebug = true ∨ AllSize boxes s) :
    ∃ mesh, buildMesh ndebug boxes = some mesh ∧
      mesh.vertices.length = 8 * boxes.length ∧
      exportAsObjFile ndebug fmt boxes filename true =
        some (Outcome.returned (some (unlines
          ("# list of vertices" :: mesh.vertices.map (vertexLine fmt) ++
            "" :: "# list of faces" :: mesh.faces.map faceLine)))) ∧
      ("# list of vertices" :: mesh.vertices.map (vertexLine fmt) ++
          "" :: "# list of faces" :: mesh.faces.map faceLine).length =
        8 * boxes.length + mesh.faces.length + 3 := by
  have hns := computeNeighbors_total ndebug boxes s hrun
  have hmesh := buildMesh_eq ndebug boxes _ hns
  refine ⟨_, hmesh, vertsOf_length boxes, ?_, ?_⟩
  · rw [exportAsObjFile_of_mesh ndebug fmt boxes filename true _ hmesh]
    rfl
  · simp only [List.length_cons, List.length_append, List.length_map, vertsOf_length]
    omega

theorem exportAsObjFile_layout_witness :
    ∃ mesh, buildMesh false [⟨0, 0, 0, 2, 0, 0⟩] = some mesh ∧
      mesh.vertices.length = 8 * [(⟨0, 0, 0, 2, 0, 0⟩ : Box)].length ∧
      exportAsObjFile false (fun _ => "0") [⟨0, 0, 0, 2, 0, 0⟩] "out.obj" true =
        some (Outcome.returned (some (unlines
          ("# list of vertices" :: mesh.vertices.map (vertexLine (fun _ => "0")) ++
            "" :: "# list of faces" :: mesh.faces.map faceLine)))) ∧
      ("# list of vertices" :: mesh.vertices.map (vertexLine (fun _ => "0")) ++
          "" :: "# list of faces" :: mesh.faces.map faceLine).length =
        8 * [(⟨0, 0, 0, 2, 0, 0⟩ : Box)].length + mesh.faces.length + 3 :=
  exportAsObjFile_layout false (fun _ => "0") [⟨0, 0, 0, 2, 0, 0⟩] "out.obj" 2
    (Or.inr (by simp [AllSize]))

/-! ## Failure of the export -/

theorem exportAsObjFile_of_abort (ndebug : Bool) (fmt : ℚ → String) (boxes : List Box)
    (filename : String) (opens : Bool) (h : buildMesh ndebug boxes = none) :
    exportAsObjFile ndebug fmt boxes filename opens = none := by
  simp [exportAsObjFile, h]

/-- C8, as stated, fails: with assertions enabled, for the two voxels of edge
sizes 1 and 2 and a destination that cannot be opened, the size assertion of
`computeNeighbors` aborts the run before `os.open` is reached, so no runtime
error is raised although the file cannot be opened. -/
theorem exportAsObjFile_abort_before_open :
    exportAsObjFile false (fun _ => "0") [⟨0, 0, 0, 1, 0, 0⟩, ⟨5, 0, 0, 2, 0, 0⟩]
        "/no/such/dir/out.obj" false = none ∧
    ¬ ∃ what os, exportAsObjFile false (fun _ => "0")
        [⟨0, 0, 0, 1, 0, 0⟩, ⟨5, 0, 0, 2, 0, 0⟩] "/no/such/dir/out.obj" false =
      some (Outcome.runtime_error what os) := by
  have hnone : exportAsObjFile false (fun _ => "0")
      [⟨0, 0, 0, 1, 0, 0⟩, ⟨5, 0, 0, 2, 0, 0⟩] "/no/such/dir/out.obj" false = none := by
    apply exportAsObjFile_of_abort
    apply buildMesh_none
    simp only [internal.computeNeighbors, freshNeighbors, List.length_cons, List.length_nil,
      List.replicate_succ, List.replicate_zero, internal.computeNeighborsFrom]
    norm_num
  refine ⟨hnone, ?_⟩
  rintro ⟨what, os, h⟩
  rw [hnone] at h
  exact absurd h (by simp)

/-- C8, amended: failure of the export.  For every list of boxes on which
`computeNeighbors` runs to its end (assertions compiled out, or one common edge
size), `exportAsObjFile` raises a runtime error if and only if the destination
cannot be opened; when it raises, the stream was never opened, so nothing was
written; when the destination opens it returns normally with the text
written.  Moreover, for every list of boxes whatsoever, no runtime error is
raised when the destination opens. -/
theorem exportAsObjFile_failure (ndebug : Bool) (fmt : ℚ → String) (boxes : List Box)
    (filename : String) (s : ℚ) (hrun : ndebug = true ∨ AllSize boxes s) (opens : Bool) :
    ((∃ what os, exportAsObjFile ndebug fmt boxes filename opens =
        some (Outcome.runtime_error what os)) ↔ opens = false) ∧
    (opens = false → exportAsObjFile ndebug fmt boxes filename opens =
      some (Outcome.runtime_error ("failed to open file \"" ++ filename ++ "\"") none)) ∧
    (opens = true → ∃ text, exportAsObjFile ndebug fmt boxes filename opens =
      some (Outcome.returned (some text))) ∧
    (∀ anyBoxes what os, exportAsObjFile ndebug fmt anyBoxes filename true ≠
      some (Outcome.runtime_error what os)) := by
  have hns := computeNeighbors_total ndebug boxes s hrun
  have hmesh := buildMesh_eq ndebug boxes _ hns
  have hexp := exportAsObjFile_of_mesh ndebug fmt boxes filename opens _ hmesh
  refine ⟨?_, ?_, ?_, ?_⟩
  · cases opens with
    | false => simp [hexp]
    | true => simp [hexp]
  · rintro rfl
    simpa using hexp
  · rintro rfl
    exact ⟨_, by simpa using hexp⟩
  · intro anyBoxes what os
    cases hb : buildMesh ndebug anyBoxes with
    | none => simp [exportAsObjFile_of_abort ndebug fmt anyBoxes filename true hb]
    | some mesh => simp [exportAsObjFile_of_mesh ndebug fmt anyBoxes filename true mesh hb]

theorem exportAsObjFile_failure_witness :
    ((∃ what os, exportAsObjFile false (fun _ => "0") [⟨0, 0, 0, 2, 0, 0⟩] "/no/such/dir/out.obj"
        false = some (Outcome.runtime_error what os)) ↔ false = false) ∧
    (false = false → exportAsObjFile false (fun _ => "0") [⟨0, 0, 0, 2, 0, 0⟩]
        "/no/such/dir/out.obj" false =
      some (Outcome.runtime_error
        ("failed to open file \"" ++ "/no/such/dir/out.obj" ++ "\"") none)) ∧
    (false = true → ∃ text, exportAsObjFile false (fun _ => "0") [⟨0, 0, 0, 2, 0, 0⟩]
        "/no/such/dir/out.obj" false = some (Outcome.returned (some text))) ∧
    (∀ anyBoxes what os, exportAsObjFile false (fun _ => "0") anyBoxes
        "/no/such/dir/out.obj" true ≠ some (Outcome.runtime_error what os)) :=
  exportAsObjFile_failure false (fun _ => "0") [⟨0, 0, 0, 2, 0, 0⟩] "/no/such/dir/out.obj" 2
    (Or.inr (by simp [AllSize])) false

/-! ## The size assertion -/

theorem computeNeighborsFrom_assert (boxes rest : List Box) (ns : List internal.Neighbors)
    (fixedSize : ℚ) (hf : fixedSize ≠ -1) (hdiff : ∃ b ∈ rest, b.size ≠ fixedSize) :
    internal.computeNeighborsFrom false boxes rest ns fixedSize = none := by
  induction rest generalizing ns with
  | nil => simp at hdiff
  | cons box rest ih =>
    cases ns with
    | nil => simp [internal.computeNeighborsFrom]
    | cons n ns =>
      simp only [internal.computeNeighborsFrom, hf, if_false, Bool.false_or,
        decide_eq_true_eq]
      split_ifs with h
      · obtain ⟨b, hb, hne⟩ := hdiff
        rcases List.mem_cons.mp hb with rfl | hb
        · exact absurd h hne
        · rw [ih ns ⟨b, hb, hne⟩]
          rfl
      · rfl

/-- C9, as stated, fails: with assertions enabled, the list of two voxels of
edge sizes `-1` and `2` goes through `computeNeighbors` without any assertion
failing, because `-1` is the value of `fixedSize` that stands for "not set". -/
theorem computeNeighbors_sentinel_size :
    (∃ a ∈ [(⟨0, 0, 0, -1, 0, 0⟩ : Box), ⟨5, 0, 0, 2, 0, 0⟩],
      ∃ b ∈ [(⟨0, 0, 0, -1, 0, 0⟩ : Box), ⟨5, 0, 0, 2, 0, 0⟩], a.size ≠ b.size) ∧
    internal.computeNeighbors false [⟨0, 0, 0, -1, 0, 0⟩, ⟨5, 0, 0, 2, 0, 0⟩]
        (freshNeighbors [⟨0, 0, 0, -1, 0, 0⟩, ⟨5, 0, 0, 2, 0, 0⟩]) =
      some [⟨0⟩, ⟨0⟩] := by
  refine ⟨⟨⟨0, 0, 0, -1, 0, 0⟩, by simp, ⟨5, 0, 0, 2, 0, 0⟩, by simp, by norm_num⟩, ?_⟩
  simp only [internal.computeNeighbors, freshNeighbors, List.length_cons, List.length_nil,
    List.replicate_succ, List.replicate_zero, internal.computeNeighborsFrom,
    internal.scanBoxes, internal.compareBox, internal.e]
  norm_num [abs_lt, internal.Neighbors.new]

/-- C9, amended: in a build with assertions enabled, for every list of boxes
whose first edge size is not `-1` (so for every list of positive edge sizes)
and which holds two voxels of different edge sizes, the size assertion of
`computeNeighbors` fails, and the call of `exportAsObjFile` does not complete. -/
theorem computeNeighbors_assert_fails (first : Box) (rest : List Box)
    (hfirst : first.size ≠ -1)
    (hdiff : ∃ a ∈ first :: rest, ∃ b ∈ first :: rest, a.size ≠ b.size) :
    internal.computeNeighbors false (first :: rest) (freshNeighbors (first :: rest)) = none ∧
    ∀ fmt filename opens, exportAsObjFile false fmt (first :: rest) filename opens = none := by
  have hrest : ∃ b ∈ rest, b.size ≠ first.size := by
    obtain ⟨a, ha, b, hb, hne⟩ := hdiff
    by_cases hA : a.size = first.size
    · rcases List.mem_cons.mp hb with rfl | hb
      · exact absurd hA hne
      · exact ⟨b, hb, fun h => hne (hA.trans h.symm)⟩
    · rcases List.mem_cons.mp ha with rfl | ha
      · exact absurd rfl hA
      · exact ⟨a, ha, hA⟩
  have hnone : internal.computeNeighbors false (first :: rest)
      (freshNeighbors (first :: rest)) = none := by
    simp only [internal.computeNeighbors, freshNeighbors, List.length_cons,
      List.replicate_succ, internal.computeNeighborsFrom, if_true]
    rw [computeNeighborsFrom_assert _ rest _ first.size hfirst hrest]
    rfl
  exact ⟨hnone, fun fmt filename opens =>
    exportAsObjFile_of_abort false fmt _ filename opens (buildMesh_none false _ hnone)⟩

theorem computeNeighbors_assert_fails_witness :
    internal.computeNeighbors false [⟨0, 0, 0, 1, 0, 0⟩, ⟨5, 0, 0, 2, 0, 0⟩]
        (freshNeighbors [⟨0, 0, 0, 1, 0, 0⟩, ⟨5, 0, 0, 2, 0, 0⟩]) = none ∧
    ∀ fmt filename opens,
      exportAsObjFile false fmt [⟨0, 0, 0, 1, 0, 0⟩, ⟨5, 0, 0, 2, 0, 0⟩] filename opens = none :=
  computeNeighbors_assert_fails ⟨0, 0, 0, 1, 0, 0⟩ [⟨5, 0, 0, 2, 0, 0⟩] (by norm_num)
    ⟨⟨0, 0, 0, 1, 0, 0⟩, by simp, ⟨5, 0, 0, 2, 0, 0⟩, by simp, by norm_num⟩

/-! ## The quads and the corners they name -/

theorem quad_indices (i : Nat) (d : Side) :
    (quad i d).indices = (quadCorners d).map (fun k => 8 * i + k + 1) := by
  cases d <;> rfl

theorem quadCorners_lt (d : Side) (k : Nat) (hk : k ∈ quadCorners d) : k < 8 := by
  cases d <;> simp only [quadCorners, List.mem_cons, List.mem_singleton, List.not_mem_nil,
    or_false] at hk <;> omega

theorem quadCorners_nodup (d : Side) : (quadCorners d).Nodup := by
  cases d <;> decide

theorem quadCorners_plane (b : Box) (d : Side) (k : Nat) (hk : k ∈ quadCorners d) :
    d.coord (corner b k) = facePlane b d := by
  cases d <;> simp only [quadCorners, List.mem_cons, List.mem_singleton, List.not_mem_nil,
    or_false] at hk <;> rcases hk with rfl | rfl | rfl | rfl <;>
    simp [Side.coord, corner, facePlane, Nat.testBit]

/-- C11: every emitted quad is the named face of its own voxel.  For every list
of `N` boxes on which `computeNeighbors` runs to its end, every face built by
`exportAsObjFile` is the quad of some voxel `i < N` and side `d` whose flag is
clear; its four indices are pairwise distinct, each lies in `8i+1 .. 8i+8`,
hence between 1 and `8N`, and names (1-based) an existing vertex that lies on
the plane of side `d` of box `i`. -/
theorem exportAsObjFile_quads (ndebug : Bool) (boxes : List Box) (s : ℚ)
    (hrun : ndebug = true ∨ AllSize boxes s) :
    ∃ ns mesh, internal.computeNeighbors ndebug boxes (freshNeighbors boxes) = some ns ∧
      buildMesh ndebug boxes = some mesh ∧
      ∀ q ∈ mesh.faces, ∃ i d, ∃ hi : i < boxes.length,
        q = quad i d ∧ (∃ n, ns[i]? = some n ∧ n.flag d = false) ∧
        q.indices.Nodup ∧
        ∀ idx ∈ q.indices, 8 * i + 1 ≤ idx ∧ idx ≤ 8 * i + 8 ∧ 1 ≤ idx ∧
          idx ≤ 8 * boxes.length ∧
          ∃ v, mesh.vertices[idx - 1]? = some v ∧ d.coord v = facePlane boxes[i] d := by
  have hns := computeNeighbors_total ndebug boxes s hrun
  refine ⟨scanAll boxes, _, hns, buildMesh_eq ndebug boxes _ hns, ?_⟩
  intro q hq
  obtain ⟨i, n, d, hn, hflag, rfl⟩ := (mem_facesOf 0 (scanAll boxes) q).mp hq
  rw [Nat.zero_add]
  have hi : i < boxes.length := by
    have := (List.getElem?_eq_some.mp hn).1
    rwa [scanAll_length] at this
  refine ⟨i, d, hi, rfl, ⟨n, hn, hflag⟩, ?_, ?_⟩
  · rw [quad_indices]
    exact (quadCorners_nodup d).map (fun a b hab => by omega)
  · intro idx hidx
    rw [quad_indices] at hidx
    obtain ⟨k, hk, rfl⟩ := List.mem_map.mp hidx
    have hk8 := quadCorners_lt d k hk
    refine ⟨by omega, by omega, by omega, by omega, corner boxes[i] k, ?_,
      quadCorners_plane _ d k hk⟩
    rw [Nat.add_sub_cancel]
    exact vertsOf_getElem? boxes i hi k hk8

theorem exportAsObjFile_quads_witness :
    ∃ ns mesh, internal.computeNeighbors false
        [⟨0, 0, 0, 1, 0, 0⟩, ⟨1, 0, 0, 1, 0, 0⟩]
        (freshNeighbors [⟨0, 0, 0, 1, 0, 0⟩, ⟨1, 0, 0, 1, 0, 0⟩]) = some ns ∧
      buildMesh false [⟨0, 0, 0, 1, 0, 0⟩, ⟨1, 0, 0, 1, 0, 0⟩] = some mesh ∧
      ∀ q ∈ mesh.faces, ∃ i d,
        ∃ hi : i < [(⟨0, 0, 0, 1, 0, 0⟩ : Box), ⟨1, 0, 0, 1, 0, 0⟩].length,
        q = quad i d ∧ (∃ n, ns[i]? = some n ∧ n.flag d = false) ∧
        q.indices.Nodup ∧
        ∀ idx ∈ q.indices, 8 * i + 1 ≤ idx ∧ idx ≤ 8 * i + 8 ∧ 1 ≤ idx ∧
          idx ≤ 8 * [(⟨0, 0, 0, 1, 0, 0⟩ : Box), ⟨1, 0, 0, 1, 0, 0⟩].length ∧
          ∃ v, mesh.vertices[idx - 1]? = some v ∧
            d.coord v = facePlane [(⟨0, 0, 0, 1, 0, 0⟩ : Box), ⟨1, 0, 0, 1, 0, 0⟩][i] d :=
  exportAsObjFile_quads false [⟨0, 0, 0, 1, 0, 0⟩, ⟨1, 0, 0, 1, 0, 0⟩] 1
    (Or.inr (by simp [AllSize]))

/-! ## Exact flags for voxels that are not degenerate -/

theorem unit_opposite (d : Side) :
    d.opposite.unit = (-d.unit.1, -d.unit.2.1, -d.unit.2.2) := by
  cases d <;> simp [Side.opposite, Side.unit]

/-- The test of side `d` of `a` against `b` is the test of the opposite side of
`b` against `a`, for two boxes of the same edge size. -/
theorem faceNeighbour_swap (a b : Box) (hsize : a.size = b.size) (d : Side)
    (h : faceNeighbour d a b) : faceNeighbour d.opposite b a := by
  obtain ⟨hx, hy, hz⟩ := h
  simp only [displaced] at hx hy hz
  simp only [faceNeighbour, displaced, unit_opposite, ← hsize]
  refine ⟨?_, ?_, ?_⟩
  · rw [← abs_neg]; convert hx using 2; ring
  · rw [← abs_neg]; convert hy using 2; ring
  · rw [← abs_neg]; convert hz using 2; ring

/-- C14: exact neighbour flags.  For every list of boxes of one common edge
size `s ≥ 2e-8`, with the six tests as `computeNeighbors` evaluates them: for
every ordered pair of voxels at most one of the six tests succeeds, no voxel
passes a test against itself, `computeNeighbors` runs to its end, each flag `d`
of voxel `i` is set if and only if some voxel of the list passes the test of
`d` in the comparison of `i` against it, a voxel `j` passes the test of `d`
against `i` exactly when `i` passes the test of the opposite side against `j`,
and then the flag `d` of `i` and the opposite flag of `j` are both set
(symmetry on the three axes, both ways round). -/
theorem computeNeighbors_exact_flags (ndebug : Bool) (boxes : List Box) (s : ℚ)
    (hs : AllSize boxes s) (hsize : 2 * internal.e ≤ s) :
    (∀ a ∈ boxes, ∀ b ∈ boxes, ∀ d d2, passes d a b → passes d2 a b → d = d2) ∧
    (∀ a ∈ boxes, ∀ d, ¬ passes d a a) ∧
    (∀ a ∈ boxes, ∀ b ∈ boxes, ∀ d, passes d a b ↔ passes d.opposite b a) ∧
    ∃ ns, internal.computeNeighbors ndebug boxes (freshNeighbors boxes) = some ns ∧
      (∀ i, ∀ hi : i < boxes.length, ∀ d, ∃ n, ns[i]? = some n ∧
        (n.flag d = true ↔ ∃ j, ∃ hj : j < boxes.length, passes d boxes[i] boxes[j])) ∧
      (∀ i j, ∀ hi : i < boxes.length, ∀ hj : j < boxes.length, ∀ d,
        passes d boxes[i] boxes[j] →
          ∃ ni nj, ns[i]? = some ni ∧ ns[j]? = some nj ∧
            ni.flag d = true ∧ nj.flag d.opposite = true) := by
  have hpos := e_pos
  have habs : ∀ a ∈ boxes, 2 * internal.e ≤ abs a.size := fun a ha => by
    rw [hs a ha]; exact le_trans hsize (le_abs_self s)
  have hswap : ∀ a ∈ boxes, ∀ b ∈ boxes, ∀ d, passes d a b → passes d.opposite b a := by
    intro a ha b hb d h
    exact (passes_iff _ _ _).mpr
      (faceNeighbour_swap a b (by rw [hs a ha, hs b hb]) d ((passes_iff _ _ _).mp h))
  have hflag : ∀ i, ∀ hi : i < boxes.length, ∀ d, ∃ n, (scanAll boxes)[i]? = some n ∧
      (n.flag d = true ↔
        ∃ j, ∃ hj : j < boxes.length, passes d boxes[i] boxes[j]) := by
    intro i hi d
    obtain ⟨n, hn, hf⟩ := scanAll_flag boxes i hi d
    refine ⟨n, hn, hf.trans ⟨?_, ?_⟩⟩
    · rintro ⟨b, hb, hm⟩
      obtain ⟨j, hj, rfl⟩ := List.getElem_of_mem hb
      exact ⟨j, hj, (passes_iff _ _ _).mpr
        ((firstMatch_iff _ _ (habs _ (List.getElem_mem hi)) d).mp hm)⟩
    · rintro ⟨j, hj, hnb⟩
      exact ⟨boxes[j], List.getElem_mem hj,
        (firstMatch_iff _ _ (habs _ (List.getElem_mem hi)) d).mpr
          ((passes_iff _ _ _).mp hnb)⟩
  refine ⟨fun a ha b _ d d2 h1 h2 => faceNeighbour_unique a b (habs a ha) d d2
      ((passes_iff _ _ _).mp h1) ((passes_iff _ _ _).mp h2),
    fun a ha d h => not_faceNeighbour_self a (by linarith [habs a ha]) d
      ((passes_iff _ _ _).mp h),
    fun a ha b hb d => ⟨hswap a ha b hb d, fun h => ?_⟩,
    scanAll boxes, computeNeighbors_total ndebug boxes s (Or.inr hs), hflag, ?_⟩
  · have h2 := hswap b hb a ha d.opposite h
    have hopp : d.opposite.opposite = d := by cases d <;> rfl
    rwa [hopp] at h2
  · intro i j hi hj d hnb
    obtain ⟨ni, hni, hfi⟩ := hflag i hi d
    obtain ⟨nj, hnj, hfj⟩ := hflag j hj d.opposite
    exact ⟨ni, nj, hni, hnj, hfi.mpr ⟨j, hj, hnb⟩, hfj.mpr ⟨i, hi,
      hswap _ (List.getElem_mem hi) _ (List.getElem_mem hj) d hnb⟩⟩

theorem computeNeighbors_exact_flags_witness :
    (∀ a ∈ [(⟨0, 0, 0, 1, 0, 0⟩ : Box), ⟨0, 0, 1, 1, 0, 0⟩],
      ∀ b ∈ [(⟨0, 0, 0, 1, 0, 0⟩ : Box), ⟨0, 0, 1, 1, 0, 0⟩], ∀ d d2,
      passes d a b → passes d2 a b → d = d2) ∧
    (∀ a ∈ [(⟨0, 0, 0, 1, 0, 0⟩ : Box), ⟨0, 0, 1, 1, 0, 0⟩], ∀ d, ¬ passes d a a) ∧
    (∀ a ∈ [(⟨0, 0, 0, 1, 0, 0⟩ : Box), ⟨0, 0, 1, 1, 0, 0⟩],
      ∀ b ∈ [(⟨0, 0, 0, 1, 0, 0⟩ : Box), ⟨0, 0, 1, 1, 0, 0⟩], ∀ d,
      passes d a b ↔ passes d.opposite b a) ∧
    ∃ ns, internal.computeNeighbors false [⟨0, 0, 0, 1, 0, 0⟩, ⟨0, 0, 1, 1, 0, 0⟩]
        (freshNeighbors [⟨0, 0, 0, 1, 0, 0⟩, ⟨0, 0, 1, 1, 0, 0⟩]) = some ns ∧
      (∀ i, ∀ hi : i < [(⟨0, 0, 0, 1, 0, 0⟩ : Box), ⟨0, 0, 1, 1, 0, 0⟩].length, ∀ d,
        ∃ n, ns[i]? = some n ∧
        (n.flag d = true ↔
          ∃ j, ∃ hj : j < [(⟨0, 0, 0, 1, 0, 0⟩ : Box), ⟨0, 0, 1, 1, 0, 0⟩].length,
            passes d [(⟨0, 0, 0, 1, 0, 0⟩ : Box), ⟨0, 0, 1, 1, 0, 0⟩][i]
              [(⟨0, 0, 0, 1, 0, 0⟩ : Box), ⟨0, 0, 1, 1, 0, 0⟩][j])) ∧
      (∀ i j, ∀ hi : i < [(⟨0, 0, 0, 1, 0, 0⟩ : Box), ⟨0, 0, 1, 1, 0, 0⟩].length,
        ∀ hj : j < [(⟨0, 0, 0, 1, 0, 0⟩ : Box), ⟨0, 0, 1, 1, 0, 0⟩].length, ∀ d,
        passes d [(⟨0, 0, 0, 1, 0, 0⟩ : Box), ⟨0, 0, 1, 1, 0, 0⟩][i]
            [(⟨0, 0, 0, 1, 0, 0⟩ : Box), ⟨0, 0, 1, 1, 0, 0⟩][j] →
          ∃ ni nj, ns[i]? = some ni ∧ ns[j]? = some nj ∧
            ni.flag d = true ∧ nj.flag d.opposite = true) :=
  computeNeighbors_exact_flags false [⟨0, 0, 0, 1, 0, 0⟩, ⟨0, 0, 1, 1, 0, 0⟩] 1
    (by simp [AllSize]) (by norm_num [internal.e])

/-! ## Winding of the quads -/

theorem vertex_at (boxes : List Box) (i : Nat) (hi : i < boxes.length) (k : Nat) (hk : k < 8)
    (idx : Nat) (h : idx = 8 * i + k + 1) :
    (vertsOf boxes)[idx - 1]? = some (corner boxes[i] k) := by
  subst h
  rw [Nat.add_sub_cancel]
  exact vertsOf_getElem? boxes i hi k hk

theorem sub_half_ne_add_half (x s : ℚ) (hs : 0 < s) : ¬ (x - s / 2 = x + s / 2) := by
  intro h; linarith

theorem add_half_ne_sub_half (x s : ℚ) (hs : 0 < s) : ¬ (x + s / 2 = x - s / 2) := by
  intro h; linarith

/-- C15, what the code does: for every list of boxes on which
`computeNeighbors` runs to its end, every voxel `i` of positive edge size `s`
and every side `d`, the four vertices named by the quad of side `d` run around
the perimeter of that face (consecutive vertices, the last and the first
included, differ in exactly one coordinate), and the cross product of the first
two edges, dotted with the outward unit vector of `d`, is `s^2` for the five
sides other than -z but `-s^2` for -z: the quad of -z is wound the other way
round, its normal pointing towards the centre of the voxel. -/
theorem exportAsObjFile_winding (ndebug : Bool) (boxes : List Box) (s : ℚ)
    (hrun : ndebug = true ∨ AllSize boxes s) (i : Nat) (hi : i < boxes.length)
    (hpos : 0 < boxes[i].size) (d : Side) :
    ∃ mesh v1 v2 v3 v4, buildMesh ndebug boxes = some mesh ∧
      mesh.vertices[(quad i d).1 - 1]? = some v1 ∧
      mesh.vertices[(quad i d).2.1 - 1]? = some v2 ∧
      mesh.vertices[(quad i d).2.2.1 - 1]? = some v3 ∧
      mesh.vertices[(quad i d).2.2.2 - 1]? = some v4 ∧
      differing v1 v2 = 1 ∧ differing v2 v3 = 1 ∧ differing v3 v4 = 1 ∧
      differing v4 v1 = 1 ∧
      dot (cross (vsub v2 v1) (vsub v3 v2)) d.unit =
        (if d = Side.minusZ then -1 else 1) * boxes[i].size ^ 2 ∧
      (d ≠ Side.minusZ → 0 < dot (cross (vsub v2 v1) (vsub v3 v2)) d.unit) ∧
      (d = Side.minusZ → dot (cross (vsub v2 v1) (vsub v3 v2)) d.unit < 0) := by
  have hns := computeNeighbors_total ndebug boxes s hrun
  have hmesh := buildMesh_eq ndebug boxes _ hns
  have h1 := sub_half_ne_add_half
  have h2 := add_half_ne_sub_half
  have hsq : 0 < boxes[i].size ^ 2 := by positivity
  cases d
  · refine ⟨_, _, _, _, _, hmesh, vertex_at boxes i hi 0 (by omega) _ rfl,
      vertex_at boxes i hi 4 (by omega) _ rfl, vertex_at boxes i hi 6 (by omega) _ rfl,
      vertex_at boxes i hi 2 (by omega) _ rfl, ?_⟩
    simp [differing, corner, Nat.testBit, dot, cross, vsub, Side.unit, h1, h2, hpos]
    ring
  · refine ⟨_, _, _, _, _, hmesh, vertex_at boxes i hi 1 (by omega) _ rfl,
      vertex_at boxes i hi 3 (by omega) _ rfl, vertex_at boxes i hi 7 (by omega) _ rfl,
      vertex_at boxes i hi 5 (by omega) _ rfl, ?_⟩
    simp [differing, corner, Nat.testBit, dot, cross, vsub, Side.unit, h1, h2, hpos]
    ring
  · refine ⟨_, _, _, _, _, hmesh, vertex_at boxes i hi 0 (by omega) _ rfl,
      vertex_at boxes i hi 1 (by omega) _ rfl, vertex_at boxes i hi 5 (by omega) _ rfl,
      vertex_at boxes i hi 4 (by omega) _ rfl, ?_⟩
    simp [differing, corner, Nat.testBit, dot, cross, vsub, Side.unit, h1, h2, hpos]
    ring
  · refine ⟨_, _, _, _, _, hmesh, vertex_at boxes i hi 3 (by omega) _ rfl,
      vertex_at boxes i hi 2 (by omega) _ rfl, vertex_at boxes i hi 6 (by omega) _ rfl,
      vertex_at boxes i hi 7 (by omega) _ rfl, ?_⟩
    simp [differing, corner, Nat.testBit, dot, cross, vsub, Side.unit, h1, h2, hpos]
    constructor <;> nlinarith
  · refine ⟨_, _, _, _, _, hmesh, vertex_at boxes i hi 0 (by omega) _ rfl,
      vertex_at boxes i hi 1 (by omega) _ rfl, vertex_at boxes i hi 3 (by omega) _ rfl,
      vertex_at boxes i hi 2 (by omega) _ rfl, ?_⟩
    simp [differing, corner, Nat.testBit, dot, cross, vsub, Side.unit, h1, h2, hpos]
    ring
  · refine ⟨_, _, _, _, _, hmesh, vertex_at boxes i hi 4 (by omega) _ rfl,
      vertex_at boxes i hi 5 (by omega) _ rfl, vertex_at boxes i hi 7 (by omega) _ rfl,
      vertex_at boxes i hi 6 (by omega) _ rfl, ?_⟩
    simp [differing, corner, Nat.testBit, dot, cross, vsub, Side.unit, h1, h2, hpos]
    ring

theorem exportAsObjFile_winding_witness :
    ∃ mesh v1 v2 v3 v4, buildMesh false [⟨0, 0, 0, 1, 0, 0⟩] = some mesh ∧
      mesh.vertices[(quad 0 Side.minusZ).1 - 1]? = some v1 ∧
      mesh.vertices[(quad 0 Side.minusZ).2.1 - 1]? = some v2 ∧
      mesh.vertices[(quad 0 Side.minusZ).2.2.1 - 1]? = some v3 ∧
      mesh.vertices[(quad 0 Side.minusZ).2.2.2 - 1]? = some v4 ∧
      differing v1 v2 = 1 ∧ differing v2 v3 = 1 ∧ differing v3 v4 = 1 ∧
      differing v4 v1 = 1 ∧
      dot (cross (vsub v2 v1) (vsub v3 v2)) Side.minusZ.unit =
        (if Side.minusZ = Side.minusZ then -1 else 1) *
          [(⟨0, 0, 0, 1, 0, 0⟩ : Box)][0].size ^ 2 ∧
      (Side.minusZ ≠ Side.minusZ →
        0 < dot (cross (vsub v2 v1) (vsub v3 v2)) Side.minusZ.unit) ∧
      (Side.minusZ = Side.minusZ →
        dot (cross (vsub v2 v1) (vsub v3 v2)) Side.minusZ.unit < 0) :=
  exportAsObjFile_winding false [⟨0, 0, 0, 1, 0, 0⟩] 1 (Or.inr (by simp [AllSize])) 0
    (by decide) (by norm_num) Side.minusZ

/-! ## The environment of the self-distance test -/

namespace test

theorem forLoop_eq (make : Nat → CollisionObject) (bound : Nat) (k i : Nat)
    (env : List CollisionObject) (hk : bound - i = k) :
    forLoop make bound i env = (max i bound, env ++ (List.range' i k).map make) := by
  induction k generalizing i env with
  | zero =>
    rw [forLoop, if_neg (by omega)]
    simp only [List.range'_zero, List.map_nil, List.append_nil, Prod.mk.injEq, and_true]
    omega
  | succ k ih =>
    rw [forLoop, if_pos (by omega), ih (i + 1) _ (by omega)]
    simp only [List.range'_succ, List.map_cons, List.append_assoc, List.singleton_append,
      Prod.mk.injEq, and_true]
    omega

theorem forLoop_done (make : Nat → CollisionObject) (bound : Nat)
    (env : List CollisionObject) : forLoop make bound bound env = (bound, env) := by
  rw [forLoop, if_neg (lt_irrefl _)]

/-- Only the first of the four loops runs: the counter `i` leaves it at the
bound, which is also the bound of the three loops that follow. -/
theorem generateSelfDistanceEnvironments_eq (floorCbrt : Nat → Nat)
    (env : List CollisionObject) (env_scale : ℚ) (n : Nat) :
    generateSelfDistanceEnvironments floorCbrt env env_scale n =
      env ++ (List.range (loopBound (edgeCount floorCbrt n))).map
        (boxAt env_scale (edgeCount floorCbrt n)) := by
  simp only [generateSelfDistanceEnvironments]
  rw [forLoop_eq _ _ _ 0 env rfl]
  simp only [Nat.zero_max, forLoop_done, Nat.sub_zero, List.range_eq_range']
  rfl

end test

namespace test

theorem wrap32_le (k : Nat) : wrap32 k ≤ k := Nat.mod_le _ _

theorem wrap32_lt (k : Nat) : wrap32 k < 2 ^ 32 := Nat.mod_lt _ (by norm_num)

theorem loopBound_le (floorCbrt : Nat → Nat) (n : Nat) (hfloor : floorCbrt n ^ 3 ≤ n) :
    loopBound (edgeCount floorCbrt n) ≤ n / 4 := by
  apply Nat.div_le_div_right
  have h1 : edgeCount floorCbrt n ≤ floorCbrt n := wrap32_le _
  calc wmul (wmul (edgeCount floorCbrt n) (edgeCount floorCbrt n)) (edgeCount floorCbrt n)
      ≤ wmul (edgeCount floorCbrt n) (edgeCount floorCbrt n) * edgeCount floorCbrt n :=
        wrap32_le _
    _ ≤ edgeCount floorCbrt n * edgeCount floorCbrt n * edgeCount floorCbrt n :=
        Nat.mul_le_mul_right _ (wrap32_le _)
    _ ≤ floorCbrt n * floorCbrt n * floorCbrt n :=
        Nat.mul_le_mul (Nat.mul_le_mul h1 h1) h1
    _ = floorCbrt n ^ 3 := by ring
    _ ≤ n := hfloor

/-- C13, what the code does: whenever `floorCbrt n` is at most the cube root of
`n` and `n > 0`, `generateSelfDistanceEnvironments(env, env_scale, n)` appends
`n_edge * n_edge * n_edge / 4` objects, all of them boxes; that is at most
`n / 4` objects, never `3 * n`. -/
theorem generateSelfDistanceEnvironments_count (floorCbrt : Nat → Nat)
    (env : List CollisionObject) (env_scale : ℚ) (n : Nat)
    (hfloor : floorCbrt n ^ 3 ≤ n) (hn : 0 < n) :
    (generateSelfDistanceEnvironments floorCbrt env env_scale n).length =
      env.length + loopBound (edgeCount floorCbrt n) ∧
    loopBound (edgeCount floorCbrt n) ≤ n / 4 ∧
    (generateSelfDistanceEnvironments floorCbrt env env_scale n).length ≠
      env.length + 3 * n ∧
    ∀ o ∈ (generateSelfDistanceEnvironments floorCbrt env env_scale n).drop env.length,
      ∃ edge, o.geom = Shape.Box edge edge edge := by
  have hle := loopBound_le floorCbrt n hfloor
  have hlen : (generateSelfDistanceEnvironments floorCbrt env env_scale n).length =
      env.length + loopBound (edgeCount floorCbrt n) := by
    simp [generateSelfDistanceEnvironments_eq]
  refine ⟨hlen, hle, ?_, ?_⟩
  · rw [hlen]
    omega
  · intro o ho
    rw [generateSelfDistanceEnvironments_eq, List.drop_left] at ho
    obtain ⟨i, _, rfl⟩ := List.mem_map.mp ho
    exact ⟨_, rfl⟩

theorem generateSelfDistanceEnvironments_count_witness :
    (generateSelfDistanceEnvironments (fun _ => 8) [] 200 512).length =
      ([] : List CollisionObject).length + loopBound (edgeCount (fun _ => 8) 512) ∧
    loopBound (edgeCount (fun _ => 8) 512) ≤ 512 / 4 ∧
    (generateSelfDistanceEnvironments (fun _ => 8) [] 200 512).length ≠
      ([] : List CollisionObject).length + 3 * 512 ∧
    ∀ o ∈ (generateSelfDistanceEnvironments (fun _ => 8) [] 200 512).drop
        ([] : List CollisionObject).length,
      ∃ edge, o.geom = Shape.Box edge edge edge :=
  generateSelfDistanceEnvironments_count (fun _ => 8) [] 200 512 (by norm_num) (by norm_num)

end test

namespace test

theorem toInt_inj (u v : Nat) (hu : u < 2 ^ 32) (hv : v < 2 ^ 32) (h : toInt u = toInt v) :
    u = v := by
  simp only [toInt] at h
  split_ifs at h <;> omega

theorem wsub_lt (a b : Nat) : wsub a b < 2 ^ 32 := wrap32_lt _

theorem wsub_left_inj (i j a : Nat) (hi : i < 2 ^ 32) (hj : j < 2 ^ 32)
    (h : wsub i a = wsub j a) : i = j := by
  simp only [wsub, wrap32] at h
  omega

theorem loopBound_lt (n_edge : Nat) : loopBound n_edge < 2 ^ 32 := by
  have h := wrap32_lt (wmul n_edge n_edge * n_edge)
  have hdiv := Nat.div_le_self (wmul (wmul n_edge n_edge) n_edge) 4
  simp only [wmul] at hdiv
  simp only [loopBound, wmul] at h ⊢
  omega

theorem edge_pos (n_edge : Nat) (h : 0 < loopBound n_edge) : 0 < n_edge := by
  rcases Nat.eq_zero_or_pos n_edge with h0 | h0
  · subst h0
    simp [loopBound, wmul, wrap32] at h
  · exact h0

/-- The decomposition of the index into the cell `(x, y, z)` loses nothing:
`z` holds `i - n_edge * n_edge * x - n_edge * y` modulo `2^32`, from which
`i < 2^32` is recovered. -/
theorem cells_inj (n_edge i j : Nat) (hi : i < loopBound n_edge) (hj : j < loopBound n_edge)
    (hx : cellX n_edge i = cellX n_edge j) (hy : cellY n_edge i = cellY n_edge j)
    (hz : cellZ n_edge i = cellZ n_edge j) : i = j := by
  have hb := loopBound_lt n_edge
  simp only [cellZ, hx, hy] at hz
  have h1 := toInt_inj _ _ (wsub_lt _ _) (wsub_lt _ _) hz
  have h2 := wsub_left_inj _ _ _ (wsub_lt _ _) (wsub_lt _ _) h1
  exact wsub_left_inj _ _ _ (by omega) (by omega) h2

end test

namespace test

theorem axis_gap (a b : Int) (hab : a ≠ b) (step c1 c2 c3 : ℚ) (hstep : 0 < step) :
    step ≤ abs (((a : ℚ) * step + c1 + c2 - c3) - ((b : ℚ) * step + c1 + c2 - c3)) := by
  have h1 : (1 : ℚ) ≤ abs ((a : ℚ) - b) := by
    have := Int.one_le_abs (sub_ne_zero.mpr hab)
    exact_mod_cast this
  have h2 : ((a : ℚ) * step + c1 + c2 - c3) - ((b : ℚ) * step + c1 + c2 - c3) =
      ((a : ℚ) - b) * step := by ring
  rw [h2, abs_mul, abs_of_pos hstep]
  nlinarith

theorem gap_of_axis (ax ay az step : ℚ) (h : step ≤ ax ∨ step ≤ ay ∨ step ≤ az) :
    2 * (step * (5 / 100)) ≤ max (max ax ay) az - 9 / 10 * step := by
  have h1 : ax ≤ max (max ax ay) az := le_trans (le_max_left _ _) (le_max_left _ _)
  have h2 : ay ≤ max (max ax ay) az := le_trans (le_max_right _ _) (le_max_left _ _)
  have h3 : az ≤ max (max ax ay) az := le_max_right _ _
  rcases h with h | h | h <;> linarith

theorem boxAt_getElem (env_scale : ℚ) (n_edge bound p : Nat)
    (hp : p < ((List.range bound).map (boxAt env_scale n_edge)).length) :
    ((List.range bound).map (boxAt env_scale n_edge))[p] = boxAt env_scale n_edge p := by
  simp

/-- C12: the environment of the self-distance test is free of collisions.  For
every `env_scale > 0` and every `n` (whatever the value `floorCbrt n` of the
cube root), the decomposition of the index into `(x, y, z)`, in the 32-bit
arithmetic of the source, is injective on the range of the loop; the objects
appended are the boxes of edge `single_size = 0.9 * step_size`, and any two of
them are separated along some axis by at least
`2 * delta_size = 0.1 * step_size > 0`. -/
theorem generateSelfDistanceEnvironments_separated (floorCbrt : Nat → Nat)
    (env : List CollisionObject) (env_scale : ℚ) (n : Nat) (hscale : 0 < env_scale) :
    (∀ i j, i < loopBound (edgeCount floorCbrt n) → j < loopBound (edgeCount floorCbrt n) →
      (cellX (edgeCount floorCbrt n) i, cellY (edgeCount floorCbrt n) i,
          cellZ (edgeCount floorCbrt n) i) =
        (cellX (edgeCount floorCbrt n) j, cellY (edgeCount floorCbrt n) j,
          cellZ (edgeCount floorCbrt n) j) → i = j) ∧
    ∃ objs, generateSelfDistanceEnvironments floorCbrt env env_scale n = env ++ objs ∧
      objs.length = loopBound (edgeCount floorCbrt n) ∧
      ∀ p q, ∀ hp : p < objs.length, ∀ hq : q < objs.length, p ≠ q →
        objs[p].geom = Shape.Box (singleSize env_scale (edgeCount floorCbrt n))
          (singleSize env_scale (edgeCount floorCbrt n))
          (singleSize env_scale (edgeCount floorCbrt n)) ∧
        objs[q].geom = Shape.Box (singleSize env_scale (edgeCount floorCbrt n))
          (singleSize env_scale (edgeCount floorCbrt n))
          (singleSize env_scale (edgeCount floorCbrt n)) ∧
        singleSize env_scale (edgeCount floorCbrt n) =
          9 / 10 * stepSize env_scale (edgeCount floorCbrt n) ∧
        2 * (stepSize env_scale (edgeCount floorCbrt n) * (5 / 100)) =
          1 / 10 * stepSize env_scale (edgeCount floorCbrt n) ∧
        0 < stepSize env_scale (edgeCount floorCbrt n) ∧
        2 * (stepSize env_scale (edgeCount floorCbrt n) * (5 / 100)) ≤
          cubeGap (singleSize env_scale (edgeCount floorCbrt n))
            objs[p].translation objs[q].translation := by
  constructor
  · intro i j hi hj h
    simp only [Prod.mk.injEq] at h
    exact cells_inj _ i j hi hj h.1 h.2.1 h.2.2
  · refine ⟨_, generateSelfDistanceEnvironments_eq floorCbrt env env_scale n, by simp, ?_⟩
    intro p q hp hq hpq
    have hp2 : p < loopBound (edgeCount floorCbrt n) := by simpa using hp
    have hq2 : q < loopBound (edgeCount floorCbrt n) := by simpa using hq
    have hedge : 0 < edgeCount floorCbrt n := edge_pos _ (by omega)
    have hstep : 0 < stepSize env_scale (edgeCount floorCbrt n) := by
      unfold stepSize
      have : (0 : ℚ) < (edgeCount floorCbrt n : ℚ) := by exact_mod_cast hedge
      positivity
    have hsingle : singleSize env_scale (edgeCount floorCbrt n) =
        9 / 10 * stepSize env_scale (edgeCount floorCbrt n) := by
      unfold singleSize; ring
    rw [boxAt_getElem, boxAt_getElem]
    refine ⟨rfl, rfl, hsingle, by ring, hstep, ?_⟩
    have hcell : cellX (edgeCount floorCbrt n) p ≠ cellX (edgeCount floorCbrt n) q ∨
        cellY (edgeCount floorCbrt n) p ≠ cellY (edgeCount floorCbrt n) q ∨
        cellZ (edgeCount floorCbrt n) p ≠ cellZ (edgeCount floorCbrt n) q := by
      by_contra hall
      push_neg at hall
      exact hpq (cells_inj _ p q hp2 hq2 hall.1 hall.2.1 hall.2.2)
    simp only [cubeGap, boxAt, place]
    rw [hsingle]
    apply gap_of_axis
    rcases hcell with h | h | h
    · exact Or.inl (axis_gap _ _ h _ _ _ _ hstep)
    · exact Or.inr (Or.inl (axis_gap _ _ h _ _ _ _ hstep))
    · exact Or.inr (Or.inr (axis_gap _ _ h _ _ _ _ hstep))

end test

namespace test

theorem generateSelfDistanceEnvironments_separated_witness :
    (∀ i j, i < loopBound (edgeCount (fun _ => 8) 512) →
      j < loopBound (edgeCount (fun _ => 8) 512) →
      (cellX (edgeCount (fun _ => 8) 512) i, cellY (edgeCount (fun _ => 8) 512) i,
          cellZ (edgeCount (fun _ => 8) 512) i) =
        (cellX (edgeCount (fun _ => 8) 512) j, cellY (edgeCount (fun _ => 8) 512) j,
          cellZ (edgeCount (fun _ => 8) 512) j) → i = j) ∧
    ∃ objs, generateSelfDistanceEnvironments (fun _ => 8) [] 200 512 = [] ++ objs ∧
      objs.length = loopBound (edgeCount (fun _ => 8) 512) ∧
      ∀ p q, ∀ hp : p < objs.length, ∀ hq : q < objs.length, p ≠ q →
        objs[p].geom = Shape.Box (singleSize 200 (edgeCount (fun _ => 8) 512))
          (singleSize 200 (edgeCount (fun _ => 8) 512))
          (singleSize 200 (edgeCount (fun _ => 8) 512)) ∧
        objs[q].geom = Shape.Box (singleSize 200 (edgeCount (fun _ => 8) 512))
          (singleSize 200 (edgeCount (fun _ => 8) 512))
          (singleSize 200 (edgeCount (fun _ => 8) 512)) ∧
        singleSize 200 (edgeCount (fun _ => 8) 512) =
          9 / 10 * stepSize 200 (edgeCount (fun _ => 8) 512) ∧
        2 * (stepSize 200 (edgeCount (fun _ => 8) 512) * (5 / 100)) =
          1 / 10 * stepSize 200 (edgeCount (fun _ => 8) 512) ∧
        0 < stepSize 200 (edgeCount (fun _ => 8) 512) ∧
        2 * (stepSize 200 (edgeCount (fun _ => 8) 512) * (5 / 100)) ≤
          cubeGap (singleSize 200 (edgeCount (fun _ => 8) 512))
            objs[p].translation objs[q].translation :=
  generateSelfDistanceEnvironments_separated (fun _ => 8) [] 200 512 (by norm_num)

end test

end hpp.fcl
